import Mathlib

/-!
# noise-reduction-tool: the audio callback, the level history and device selection

A shallow embedding of `src/noise-reduction-tool.cpp`.

* A C buffer (`float*`) is a `Buffer F`, a map from sample index to sample; a null
  pointer is `none`.
* `F` is the sample type.  The definitions only use the operations the source uses
  (`+`, `*`, `-`, `/`, the literals `0`, `1`, `10` and the conversion of the frame count),
  so the structural theorems hold for every interpretation of the arithmetic.
  Theorems that need arithmetic laws are stated over a field: rounding of `float`
  is not modelled there.
* `sqrtf` (libm) and `rnnoise_process_frame` (RNNoise) are external: they are parameters.
  `rnnoise_process_frame` needs a `DenoiseState` made by `rnnoise_create`; calling it with
  a null state is undefined behaviour, which the embedding reports as a `Fault`.
* `F32` is a model of the C type `float` (IEEE 754 binary32, round to nearest, ties to
  even), used where a statement depends on rounding, overflow or underflow.
-/

namespace NoiseReduction

/-! ## Constants and data -/

/-- `#define FRAMES_PER_BUFFER 480`. -/
def FRAMES_PER_BUFFER : Nat := 480

/-- `constexpr int HISTORY_SIZE = 100`. -/
def HISTORY_SIZE : Nat := 100

/-- `paContinue` of `portaudio.h` (`PaStreamCallbackResult`), the value `0`. -/
def paContinue : Int := 0

/-- A `float*` seen as the memory it points to: `get i` is the sample `p[i]`. -/
structure Buffer (F : Type) where
  get : Nat → F

/-- The assignment `buf[i] = v`. -/
def store {F : Type} (buf : Buffer F) (i : Nat) (v : F) : Buffer F :=
  ⟨fun j => if j = i then v else buf.get j⟩

/-- The loop `for (i = 0; i < n; ++i) body`, run on a state `s`. -/
def forRange {σ : Type} (n : Nat) (body : Nat → σ → σ) (s : σ) : σ :=
  (List.range n).foldl (fun acc i => body i acc) s

/-- The global variables of the program (lines 22-31): the three atomics, the two
history arrays and the history cursor. -/
structure Globals (F : Type) where
  reductionStrength : F
  inputLevel : F
  outputLevel : F
  inputHistory : Buffer F
  outputHistory : Buffer F
  historyIndex : Nat

/-- The initial values of the globals: strength `1.0f`, levels `0.0f`, both histories
zero-filled, cursor `0`. -/
def initialGlobals (F : Type) [Zero F] [One F] : Globals F :=
  { reductionStrength := 1
    inputLevel := 0
    outputLevel := 0
    inputHistory := ⟨fun _ => 0⟩
    outputHistory := ⟨fun _ => 0⟩
    historyIndex := 0 }

/-- The struct `RNNoiseProcessor`: the handle `st`, `none` when `rnnoise_create` returned
null.  `D` is the type of the engine state behind a valid handle. -/
structure RNNoiseProcessor (D : Type) where
  st : Option D

/-- Undefined behaviour the embedding makes explicit: `rnnoise_process_frame` is called
with a null `DenoiseState`.  `globals` are the globals at that call: the stores made
before it (line 76) are in them. -/
inductive Fault (F : Type) where
  | nullDenoiseState (globals : Globals F) : Fault F

/-- What one call of `paCallback` leaves behind: the return value, the memory of the
output buffer (`none` for a null pointer), the globals and the processor. -/
structure CallbackResult (F D : Type) where
  ret : Int
  out : Option (Buffer F)
  globals : Globals F
  proc : Option (RNNoiseProcessor D)

/-- The storage of `std::vector<float> tmp(p, p + n)`: the first `n` samples of `p`. -/
def vectorOf {F : Type} [Zero F] (p : Buffer F) (n : Nat) : Buffer F :=
  ⟨fun i => if i < n then p.get i else 0⟩

/-- The effect of `rnnoise_process_frame(st, out, in)` on `out`: the engine writes its
`FRAMES_PER_BUFFER` denoised samples over the start of `out`. -/
def writeFrame {F : Type} (den out : Buffer F) : Buffer F :=
  ⟨fun i => if i < FRAMES_PER_BUFFER then den.get i else out.get i⟩

/-- The accumulation `acc = 0; for i < n: acc += buf[i] * buf[i]` (lines 71-74, 96-99). -/
def sumSquares {F : Type} [Zero F] [Add F] [Mul F] (buf : Buffer F) (n : Nat) : F :=
  forRange n (fun i acc => acc + buf.get i * buf.get i) 0

/-- The level `sqrtf(acc / framesPerBuffer)` (lines 75, 100). -/
def rmsLevel {F : Type} [Zero F] [Add F] [Mul F] [Div F] [NatCast F]
    (sqrtf : F → F) (buf : Buffer F) (n : Nat) : F :=
  sqrtf (sumSquares buf n / (n : F))

/-- The loop of lines 62-63: `out[i] = 0.0f`. -/
def zeroFill {F : Type} [Zero F] (n : Nat) (out : Buffer F) : Buffer F :=
  forRange n (fun i o => store o i 0) out

/-- The loop of lines 90-92: `out[i] = in[i]`. -/
def copyThrough {F : Type} (n : Nat) (inp out : Buffer F) : Buffer F :=
  forRange n (fun i o => store o i (inp.get i)) out

/-- The loop of lines 85-87: `out[i] = out[i] * strength + in[i] * (1.0f - strength)`. -/
def mixLoop {F : Type} [One F] [Add F] [Mul F] [Sub F]
    (n : Nat) (strength : F) (inp out : Buffer F) : Buffer F :=
  forRange n (fun i o => store o i (o.get i * strength + inp.get i * (1 - strength))) out

/-! ## The PortAudio callback -/

/-- The function `paCallback` (lines 51-104).  `timeInfo` and `statusFlags` are unused by
the source and left out. -/
def paCallback {F D : Type} [Zero F] [One F] [Add F] [Mul F] [Sub F] [Div F] [NatCast F]
    (sqrtf : F → F) (rnnoise_process_frame : D → Buffer F → D × Buffer F)
    (g : Globals F) (inputBuffer outputBuffer : Option (Buffer F))
    (framesPerBuffer : Nat) (userData : Option (RNNoiseProcessor D)) :
    Except (Fault F) (CallbackResult F D) :=
  match inputBuffer, outputBuffer, userData with
  | some inp, some out, some proc =>
    let strength := g.reductionStrength
    let inRMS := rmsLevel sqrtf inp framesPerBuffer
    let g1 := { g with inputLevel := inRMS }
    if framesPerBuffer = FRAMES_PER_BUFFER then
      match proc.st with
      | none => Except.error (Fault.nullDenoiseState g1)
      | some st =>
        let tmp := vectorOf inp framesPerBuffer
        let r := rnnoise_process_frame st tmp
        let out1 := writeFrame r.2 out
        let out2 := mixLoop framesPerBuffer strength inp out1
        let outRMS := rmsLevel sqrtf out2 framesPerBuffer
        Except.ok { ret := paContinue, out := some out2,
                    globals := { g1 with outputLevel := outRMS },
                    proc := some { st := some r.1 } }
    else
      let out2 := copyThrough framesPerBuffer inp out
      let outRMS := rmsLevel sqrtf out2 framesPerBuffer
      Except.ok { ret := paContinue, out := some out2,
                  globals := { g1 with outputLevel := outRMS },
                  proc := some proc }
  | _, some out, _ =>
    Except.ok { ret := paContinue, out := some (zeroFill framesPerBuffer out),
                globals := g, proc := userData }
  | _, none, _ =>
    Except.ok { ret := paContinue, out := none, globals := g, proc := userData }

/-- The method `RNNoiseProcessor::process` (lines 41-47): the frame after the call and the
processor after the call. -/
def RNNoiseProcessor.process {F D : Type} [Zero F] [One F] [Add F] [Mul F] [Sub F]
    (rnnoise_process_frame : D → Buffer F → D × Buffer F)
    (self : RNNoiseProcessor D) (frame : Buffer F) (frame_size : Nat) (strength : F) :
    Buffer F × RNNoiseProcessor D :=
  match self.st with
  | none => (frame, self)
  | some st =>
    let tmp := vectorOf frame frame_size
    let r := rnnoise_process_frame st tmp
    let frame1 := writeFrame r.2 frame
    (forRange frame_size
        (fun i f => store f i (tmp.get i * strength + f.get i * (1 - strength))) frame1,
      { st := some r.1 })

/-! ## The history update of the main loop -/

/-- Lines 412-417 of `main`, run once per UI frame while audio is enabled. -/
def updateHistory {F : Type} [Mul F] [NatCast F] (g : Globals F) : Globals F :=
  let inLevel := g.inputLevel
  let outLevel := g.outputLevel
  { g with
    inputHistory := store g.inputHistory g.historyIndex (inLevel * ((10 : Nat) : F))
    outputHistory := store g.outputHistory g.historyIndex (outLevel * ((10 : Nat) : F))
    historyIndex := (g.historyIndex + 1) % HISTORY_SIZE }

/-- A run of history updates: before each update the audio thread has stored the pair of
levels `(inLevel, outLevel)` the update then reads. -/
def historyRun {F : Type} [Mul F] [NatCast F] (levels : List (F × F)) (g : Globals F) :
    Globals F :=
  levels.foldl
    (fun acc l => updateHistory { acc with inputLevel := l.1, outputLevel := l.2 }) g

/-! ## Device selection in `main` -/

/-- The fields of `PaDeviceInfo` that `main` reads. -/
structure PaDeviceInfo where
  name : String
  maxInputChannels : Int
  maxOutputChannels : Int

/-- Whether `pat` matches at the very start of `s`. -/
def startsWith : List Char → List Char → Bool
  | _, [] => true
  | [], _ :: _ => false
  | c :: cs, p :: ps => c == p && startsWith cs ps

/-- Whether `pat` matches somewhere in `s`. -/
def findSub : List Char → List Char → Bool
  | [], pat => startsWith [] pat
  | c :: cs, pat => startsWith (c :: cs) pat || findSub cs pat

/-- The test `name.find(pat) != std::string::npos`. -/
def nameContains (name pat : String) : Bool :=
  findSub name.toList pat.toList

/-- The flag `isPreferred` of lines 242-244. -/
def isPreferred (name : String) : Bool :=
  nameContains name "pipewire" || nameContains name "pulse" || nameContains name "default"

/-- The two locals `inputDevice` and `outputDevice` of `main`. -/
structure DeviceChoice where
  inputDevice : Int
  outputDevice : Int
  deriving DecidableEq, Repr

/-- The body of the first loop (lines 235-250) for index `i`. -/
def firstPassBody (Pa_GetDeviceInfo : Int → Option PaDeviceInfo) (i : Nat)
    (c : DeviceChoice) : DeviceChoice :=
  match Pa_GetDeviceInfo (i : Int) with
  | none => c
  | some info =>
    let pref := isPreferred info.name
    let c1 : DeviceChoice :=
      if pref && c.inputDevice == -1 && decide (info.maxInputChannels > 0) then
        { c with inputDevice := (i : Int) } else c
    if pref && c1.outputDevice == -1 && decide (info.maxOutputChannels > 0) then
      { c1 with outputDevice := (i : Int) } else c1

/-- The body of the second loop (lines 256-262) for index `i`. -/
def secondPassBody (Pa_GetDeviceInfo : Int → Option PaDeviceInfo) (i : Nat)
    (c : DeviceChoice) : DeviceChoice :=
  match Pa_GetDeviceInfo (i : Int) with
  | none => c
  | some info =>
    let c1 : DeviceChoice :=
      if c.inputDevice == -1 && decide (info.maxInputChannels > 0) then
        { c with inputDevice := (i : Int) } else c
    if c1.outputDevice == -1 && decide (info.maxOutputChannels > 0) then
      { c1 with outputDevice := (i : Int) } else c1

/-- Lines 230-264 of `main`: both passes over the `numDevices` devices. -/
def selectDevices (numDevices : Int) (Pa_GetDeviceInfo : Int → Option PaDeviceInfo) :
    DeviceChoice :=
  let c0 : DeviceChoice := { inputDevice := -1, outputDevice := -1 }
  let c1 := forRange numDevices.toNat (firstPassBody Pa_GetDeviceInfo) c0
  if c1.inputDevice == -1 || c1.outputDevice == -1 then
    forRange numDevices.toNat (secondPassBody Pa_GetDeviceInfo) c1
  else c1

/-- The condition of line 266: `Pa_OpenStream` is called in its true branch only. -/
def opensStream (c : DeviceChoice) : Bool :=
  c.inputDevice != -1 && c.outputDevice != -1

/-! ## Vocabulary of the statements -/

/-- Device `i` is one of the enumerated devices, has an info record and that record
satisfies `p`. -/
def DeviceSat (numDevices : Int) (Pa_GetDeviceInfo : Int → Option PaDeviceInfo)
    (p : PaDeviceInfo → Prop) (i : Nat) : Prop :=
  (i : Int) < numDevices ∧ ∃ info, Pa_GetDeviceInfo (i : Int) = some info ∧ p info

/-- Device `i` is the lowest-index device satisfying `p`. -/
def LowestDevice (numDevices : Int) (Pa_GetDeviceInfo : Int → Option PaDeviceInfo)
    (p : PaDeviceInfo → Prop) (i : Nat) : Prop :=
  DeviceSat numDevices Pa_GetDeviceInfo p i ∧
    ∀ j, j < i → ¬ DeviceSat numDevices Pa_GetDeviceInfo p j

/-- The name contains one of the three substrings the source looks for. -/
def PreferredName (name : String) : Prop :=
  "pipewire".toList <:+: name.toList ∨ "pulse".toList <:+: name.toList ∨
    "default".toList <:+: name.toList

/-- The test `q` on the info record of device `i`, false for a null record. -/
def devTest (Pa_GetDeviceInfo : Int → Option PaDeviceInfo) (q : PaDeviceInfo → Bool)
    (i : Nat) : Bool :=
  match Pa_GetDeviceInfo (i : Int) with
  | some info => q info
  | none => false

/-- The output buffer a callback result holds at sample `i`, when the call returned and
the buffer is present. -/
def outSample {F D : Type} (r : Except (Fault F) (CallbackResult F D)) (i : Nat) :
    Option F :=
  match r with
  | Except.ok res => res.out.map (fun o => o.get i)
  | Except.error _ => none

/-- The globals a callback result holds, when the call returned. -/
def globalsOf {F D : Type} (r : Except (Fault F) (CallbackResult F D)) :
    Option (Globals F) :=
  match r with
  | Except.ok res => some res.globals
  | Except.error _ => none

/-- The globals after a call of the callback: those of the result when the call returned,
those at the faulting engine call otherwise. -/
def globalsAfter {F D : Type} (r : Except (Fault F) (CallbackResult F D)) : Globals F :=
  match r with
  | Except.ok res => res.globals
  | Except.error (Fault.nullDenoiseState g) => g

/-! ## A model of the C type `float`

IEEE 754 binary32 with the default rounding (to nearest, ties to even).  Finite values are
kept as rationals, every operation is the exact rational operation followed by rounding.
The two zeros are not told apart (`fin 0` stands for both), which only matters for the
sign of `x / 0` and of `sqrtf (-0)`; NaN payloads are not modelled. -/

/-- The value `⌊log₂ n⌋` for `n ≥ 1` (and `0` for `n = 0`), by halving; `fuel` bounds the
number of halvings and `fuel = n` is always enough. -/
def log2F : Nat → Nat → Nat
  | 0, _ => 0
  | fuel + 1, n => if n < 2 then 0 else log2F fuel (n / 2) + 1

/-- The integer square root, one binary digit at a time from bit `b - 1` down: `acc` grows
by `2 ^ b` whenever the square still fits under `n`. -/
def isqrtAux (n : Nat) : Nat → Nat → Nat
  | 0, acc => acc
  | b + 1, acc =>
    isqrtAux n b (if (acc + 2 ^ b) * (acc + 2 ^ b) ≤ n then acc + 2 ^ b else acc)

/-- The value `⌊√n⌋`. -/
def isqrt (n : Nat) : Nat :=
  isqrtAux n (log2F n n / 2 + 1) 0

/-- The values of a `float`: a finite value, an infinity with its sign, or NaN. -/
inductive F32 where
  | fin (q : ℚ) : F32
  | inf (neg : Bool) : F32
  | nan : F32
  deriving DecidableEq, Repr

namespace F32

/-- The exponent `⌊log₂ a⌋` of a positive rational. -/
def ilog2 (a : ℚ) : Int :=
  let e0 : Int := (log2F a.num.natAbs a.num.natAbs : Int) - (log2F a.den a.den : Int)
  if a < (2 : ℚ) ^ e0 then e0 - 1 else e0

/-- The nearest integer to a non-negative rational, ties to the even one. -/
def roundEven (m : ℚ) : Int :=
  let r : Int := ⌊m⌋
  let frac : ℚ := m - r
  if frac < 1 / 2 then r
  else if 1 / 2 < frac then r + 1
  else if r % 2 = 0 then r else r + 1

/-- A positive magnitude rounded to 24 significant bits, with the spacing `2 ^ (-149)` of
the subnormal range below `2 ^ (-126)`; `none` when the rounded value reaches `2 ^ 128`
(overflow). -/
def roundMag (a : ℚ) : Option ℚ :=
  let e : Int := max (ilog2 a) (-126)
  let u : ℚ := (2 : ℚ) ^ (e - 23)
  let v : ℚ := (roundEven (a / u) : ℚ) * u
  if v < (2 : ℚ) ^ (128 : Nat) then some v else none

/-- The `float` nearest to the rational `q`; an infinity on overflow. -/
def ofRat (q : ℚ) : F32 :=
  if q = 0 then fin 0
  else
    match roundMag |q| with
    | some v => fin (if q < 0 then -v else v)
    | none => inf (decide (q < 0))

/-- The sum of two `float`s. -/
def add : F32 → F32 → F32
  | fin a, fin b => ofRat (a + b)
  | fin _, inf s => inf s
  | inf s, fin _ => inf s
  | inf s, inf t => if s = t then inf s else nan
  | _, _ => nan

/-- The negation of a `float`. -/
def neg : F32 → F32
  | fin a => fin (-a)
  | inf s => inf (!s)
  | nan => nan

/-- The product of two `float`s. -/
def mul : F32 → F32 → F32
  | fin a, fin b => ofRat (a * b)
  | fin a, inf s => if a = 0 then nan else inf (xor (decide (a < 0)) s)
  | inf s, fin b => if b = 0 then nan else inf (xor s (decide (b < 0)))
  | inf s, inf t => inf (xor s t)
  | _, _ => nan

/-- The quotient of two `float`s. -/
def div : F32 → F32 → F32
  | fin a, fin b =>
    if b = 0 then (if a = 0 then nan else inf (decide (a < 0))) else ofRat (a / b)
  | fin _, inf _ => fin 0
  | inf s, fin b => inf (xor s (decide (b < 0)))
  | _, _ => nan

/-- The function `sqrtf`, correctly rounded: for `q > 0` the square root lies in
`[2 ^ e, 2 ^ (e + 1))` with `e = ⌊⌊log₂ q⌋ / 2⌋`, its 24-bit significand is found by an
integer square root and the rounding is decided by comparing `q` with the square of the
midpoint. -/
def sqrt : F32 → F32
  | fin q =>
    if q < 0 then nan
    else if q = 0 then fin 0
    else
      let e : Int := Int.fdiv (ilog2 q) 2
      let u : ℚ := (2 : ℚ) ^ (e - 23)
      let x : ℚ := q / (u * u)
      let m : Nat := isqrt ⌊x⌋.toNat
      let h : ℚ := (m : ℚ) + 1 / 2
      let r : Nat :=
        if x < h * h then m
        else if h * h < x then m + 1
        else if m % 2 = 0 then m else m + 1
      fin ((r : ℚ) * u)
  | inf false => inf false
  | _ => nan

/-- The function `fabsf`. -/
def abs : F32 → F32
  | fin q => fin |q|
  | inf _ => inf false
  | nan => nan

/-- The comparison `a < b` of two `float`s; false whenever a NaN is involved. -/
def lt : F32 → F32 → Prop
  | fin a, fin b => a < b
  | fin _, inf s => s = false
  | inf s, fin _ => s = true
  | inf s, inf t => s = true ∧ t = false
  | _, _ => False

instance : Zero F32 := ⟨fin 0⟩

instance : One F32 := ⟨fin 1⟩

instance : Add F32 := ⟨add⟩

instance : Mul F32 := ⟨mul⟩

instance : Sub F32 := ⟨fun a b => add a (neg b)⟩

instance : Div F32 := ⟨div⟩

instance : NatCast F32 := ⟨fun n => ofRat (n : ℚ)⟩

instance : LT F32 := ⟨lt⟩

end F32

/-! ## Concrete inputs used to exercise the theorems -/

/-- The `float` nearest to `0.1`, the literal `0.1f`: `13421773 / 2 ^ 27`. -/
def tenth : F32 := F32.fin (13421773 / 134217728)

/-- A stand-in engine for any sample type: it returns the frame it is given and counts
the frames it has processed. -/
def echoEngine {F : Type} : Nat → Buffer F → Nat × Buffer F :=
  fun st x => (st + 1, x)

/-- A buffer holding the same sample everywhere. -/
def constBuf {F : Type} (a : F) : Buffer F := ⟨fun _ => a⟩

/-- A stand-in engine over the rationals: it halves every sample and counts the frames
it has processed. -/
def halfEngine : Nat → Buffer ℚ → Nat × Buffer ℚ :=
  fun st x => (st + 1, ⟨fun i => x.get i / 2⟩)

/-- A stand-in engine over the rationals that returns silence. -/
def silenceEngine : Nat → Buffer ℚ → Nat × Buffer ℚ :=
  fun st _ => (st + 1, ⟨fun _ => 0⟩)

/-- Globals with a chosen strength, everything else initial. -/
def globalsWithStrength (s : ℚ) : Globals ℚ :=
  { initialGlobals ℚ with reductionStrength := s }

/-- A small device table: a hardware capture device, a null entry, a PulseAudio
device and a playback-only default device. -/
def sampleDevices : Int → Option PaDeviceInfo := fun i =>
  if i = 0 then some { name := "hw:0,0", maxInputChannels := 2, maxOutputChannels := 0 }
  else if i = 2 then some { name := "pulse", maxInputChannels := 32, maxOutputChannels := 32 }
  else if i = 3 then some { name := "default", maxInputChannels := 0, maxOutputChannels := 2 }
  else none

/-! ## Loops -/

theorem forRange_zero {σ : Type} (body : Nat → σ → σ) (s : σ) : forRange 0 body s = s := rfl

theorem forRange_succ {σ : Type} (n : Nat) (body : Nat → σ → σ) (s : σ) :
    forRange (n + 1) body s = body n (forRange n body s) := by
  simp [forRange, List.range_succ, List.foldl_append]

/-- A loop that assigns `buf[i] = f i buf[i]` for `i < n` leaves `f j buf[j]` at every
`j < n` and does not touch the rest. -/
theorem forRange_store {F : Type} (f : Nat → F → F) (n : Nat) (buf : Buffer F) (j : Nat) :
    (forRange n (fun i o => store o i (f i (o.get i))) buf).get j
      = if j < n then f j (buf.get j) else buf.get j := by
  induction n with
  | zero => simp [forRange_zero]
  | succ k ih =>
    rw [forRange_succ]
    show (if j = k then f k ((forRange k (fun i o => store o i (f i (o.get i))) buf).get k)
        else (forRange k (fun i o => store o i (f i (o.get i))) buf).get j) = _
    by_cases hj : j = k
    · subst hj
      simp [ih]
    · rw [if_neg hj, ih]
      by_cases hlt : j < k
      · have : j < k + 1 := by omega
        simp [hlt, this]
      · have : ¬ j < k + 1 := by omega
        simp [hlt, this]

theorem zeroFill_apply {F : Type} [Zero F] (n : Nat) (out : Buffer F) (j : Nat) :
    (zeroFill n out).get j = if j < n then 0 else out.get j :=
  forRange_store (fun _ _ => 0) n out j

theorem copyThrough_apply {F : Type} (n : Nat) (inp out : Buffer F) (j : Nat) :
    (copyThrough n inp out).get j = if j < n then inp.get j else out.get j :=
  forRange_store (fun i _ => inp.get i) n out j

theorem mixLoop_apply {F : Type} [One F] [Add F] [Mul F] [Sub F]
    (n : Nat) (s : F) (inp out : Buffer F) (j : Nat) :
    (mixLoop n s inp out).get j
      = if j < n then out.get j * s + inp.get j * (1 - s) else out.get j :=
  forRange_store (fun i v => v * s + inp.get i * (1 - s)) n out j

/-- The accumulation loop computes the sum of the squares. -/
theorem sumSquares_eq_sum {F : Type} [Field F] (buf : Buffer F) (n : Nat) :
    sumSquares buf n = ∑ i in Finset.range n, buf.get i ^ 2 := by
  induction n with
  | zero => simp [sumSquares, forRange_zero]
  | succ k ih =>
    have h : sumSquares buf (k + 1) = sumSquares buf k + buf.get k * buf.get k := by
      simp [sumSquares, forRange_succ]
    rw [h, ih, Finset.sum_range_succ, pow_two]

/-- The accumulation only reads the first `n` samples. -/
theorem sumSquares_congr {F : Type} [Zero F] [Add F] [Mul F] (a b : Buffer F) (n : Nat)
    (h : ∀ i, i < n → a.get i = b.get i) : sumSquares a n = sumSquares b n := by
  induction n with
  | zero => rfl
  | succ k ih =>
    have ha : sumSquares a (k + 1) = sumSquares a k + a.get k * a.get k := by
      simp [sumSquares, forRange_succ]
    have hb : sumSquares b (k + 1) = sumSquares b k + b.get k * b.get k := by
      simp [sumSquares, forRange_succ]
    rw [ha, hb, ih (fun i hi => h i (by omega)), h k (by omega)]

/-! ## The branches of `paCallback` -/

/-- The normal path: all three pointers present, 480 frames, a valid engine handle. -/
theorem paCallback_normal {F D : Type} [Zero F] [One F] [Add F] [Mul F] [Sub F] [Div F]
    [NatCast F] (sqrtf : F → F) (e : D → Buffer F → D × Buffer F) (g : Globals F)
    (inp out : Buffer F) (proc : RNNoiseProcessor D) (d : D) (hst : proc.st = some d) :
    paCallback sqrtf e g (some inp) (some out) 480 (some proc)
      = Except.ok
          { ret := paContinue
            out := some (mixLoop 480 g.reductionStrength inp
                      (writeFrame (e d (vectorOf inp 480)).2 out))
            globals :=
              { g with
                inputLevel := rmsLevel sqrtf inp 480
                outputLevel := rmsLevel sqrtf
                    (mixLoop 480 g.reductionStrength inp
                      (writeFrame (e d (vectorOf inp 480)).2 out)) 480 }
            proc := some { st := some (e d (vectorOf inp 480)).1 } } := by
  simp [paCallback, FRAMES_PER_BUFFER, hst]

/-- The 480-frame path with a null engine handle: the engine is called on the null
handle, after the input level has been stored. -/
theorem paCallback_null_state {F D : Type} [Zero F] [One F] [Add F] [Mul F] [Sub F] [Div F]
    [NatCast F] (sqrtf : F → F) (e : D → Buffer F → D × Buffer F) (g : Globals F)
    (inp out : Buffer F) (proc : RNNoiseProcessor D) (hst : proc.st = none) :
    paCallback sqrtf e g (some inp) (some out) 480 (some proc)
      = Except.error
          (Fault.nullDenoiseState { g with inputLevel := rmsLevel sqrtf inp 480 }) := by
  simp [paCallback, FRAMES_PER_BUFFER, hst]

/-- The size-mismatch path: all three pointers present, a frame count other than 480. -/
theorem paCallback_mismatch {F D : Type} [Zero F] [One F] [Add F] [Mul F] [Sub F] [Div F]
    [NatCast F] (sqrtf : F → F) (e : D → Buffer F → D × Buffer F) (g : Globals F)
    (inp out : Buffer F) (n : Nat) (proc : RNNoiseProcessor D) (hn : n ≠ 480) :
    paCallback sqrtf e g (some inp) (some out) n (some proc)
      = Except.ok
          { ret := paContinue
            out := some (copyThrough n inp out)
            globals :=
              { g with
                inputLevel := rmsLevel sqrtf inp n
                outputLevel := rmsLevel sqrtf (copyThrough n inp out) n }
            proc := some proc } := by
  simp [paCallback, FRAMES_PER_BUFFER, hn]

/-- The silence path: output present, input or processor absent. -/
theorem paCallback_absent {F D : Type} [Zero F] [One F] [Add F] [Mul F] [Sub F] [Div F]
    [NatCast F] (sqrtf : F → F) (e : D → Buffer F → D × Buffer F) (g : Globals F)
    (inputBuffer : Option (Buffer F)) (out : Buffer F) (n : Nat)
    (userData : Option (RNNoiseProcessor D)) (h : inputBuffer = none ∨ userData = none) :
    paCallback sqrtf e g inputBuffer (some out) n userData
      = Except.ok { ret := paContinue, out := some (zeroFill n out), globals := g,
                    proc := userData } := by
  rcases h with h | h
  · subst h
    cases userData <;> rfl
  · subst h
    cases inputBuffer <;> rfl

/-- No output buffer: nothing is written. -/
theorem paCallback_no_output {F D : Type} [Zero F] [One F] [Add F] [Mul F] [Sub F] [Div F]
    [NatCast F] (sqrtf : F → F) (e : D → Buffer F → D × Buffer F) (g : Globals F)
    (inputBuffer : Option (Buffer F)) (n : Nat) (userData : Option (RNNoiseProcessor D)) :
    paCallback sqrtf e g inputBuffer none n userData
      = Except.ok { ret := paContinue, out := none, globals := g, proc := userData } := by
  cases inputBuffer <;> cases userData <;> rfl

/-- Whenever the callback returns, it returns `paContinue`. -/
theorem paCallback_ret {F D : Type} [Zero F] [One F] [Add F] [Mul F] [Sub F] [Div F]
    [NatCast F] (sqrtf : F → F) (e : D → Buffer F → D × Buffer F) (g : Globals F)
    (inputBuffer outputBuffer : Option (Buffer F)) (n : Nat)
    (userData : Option (RNNoiseProcessor D)) (r : CallbackResult F D)
    (h : paCallback sqrtf e g inputBuffer outputBuffer n userData = Except.ok r) :
    r.ret = paContinue := by
  cases outputBuffer with
  | none =>
    rw [paCallback_no_output] at h
    cases h
    rfl
  | some out =>
    cases inputBuffer with
    | none =>
      rw [paCallback_absent sqrtf e g none out n userData (Or.inl rfl)] at h
      cases h
      rfl
    | some inp =>
      cases userData with
      | none =>
        rw [paCallback_absent sqrtf e g (some inp) out n none (Or.inr rfl)] at h
        cases h
        rfl
      | some proc =>
        by_cases hn : n = 480
        · subst hn
          cases hst : proc.st with
          | none =>
            rw [paCallback_null_state sqrtf e g inp out proc hst] at h
            cases h
          | some d =>
            rw [paCallback_normal sqrtf e g inp out proc d hst] at h
            cases h
            rfl
        · rw [paCallback_mismatch sqrtf e g inp out n proc hn] at h
          cases h
          rfl

/-! ## Claims about the callback -/

/-- C1: with input buffer, output buffer and processor present, 480 frames and a valid
engine handle, the callback returns and every output sample `i < 480` is
`denoised[i] * s + in[i] * (1 - s)`, where `s` is the stored strength and `denoised` is
the frame the engine returns for the first 480 input samples; with `s = 0` the output is the
input and with `s = 1` it is the denoised frame. -/
theorem blend_linearity {F D : Type} [Field F] (sqrtf : F → F)
    (e : D → Buffer F → D × Buffer F) (g : Globals F) (inp out : Buffer F)
    (proc : RNNoiseProcessor D) (d : D) (hst : proc.st = some d) :
    ∃ r o, paCallback sqrtf e g (some inp) (some out) 480 (some proc) = Except.ok r ∧
      r.out = some o ∧
      (∀ i, i < 480 →
        o.get i = (e d (vectorOf inp 480)).2.get i * g.reductionStrength
              + inp.get i * (1 - g.reductionStrength)) ∧
      (g.reductionStrength = 0 → ∀ i, i < 480 → o.get i = inp.get i) ∧
      (g.reductionStrength = 1 → ∀ i, i < 480 → o.get i = (e d (vectorOf inp 480)).2.get i) := by
  have key : ∀ i, i < 480 →
      (mixLoop 480 g.reductionStrength inp (writeFrame (e d (vectorOf inp 480)).2 out)).get i
        = (e d (vectorOf inp 480)).2.get i * g.reductionStrength
            + inp.get i * (1 - g.reductionStrength) := by
    intro i hi
    rw [mixLoop_apply, if_pos hi]
    simp [writeFrame, FRAMES_PER_BUFFER, hi]
  refine ⟨_, _, paCallback_normal sqrtf e g inp out proc d hst, rfl, key, ?_, ?_⟩
  · intro h0 i hi
    rw [key i hi, h0]
    simp
  · intro h1 i hi
    rw [key i hi, h1]
    simp

/-- The blend on a concrete frame: strength 1/4, input 1 everywhere, the halving engine. -/
theorem blend_linearity_witness :
    (({ st := some 0 } : RNNoiseProcessor Nat).st = some 0) ∧
    ∃ r o, paCallback Rat.sqrt halfEngine (globalsWithStrength (1 / 4)) (some (constBuf 1))
        (some (constBuf 0)) 480 (some { st := some 0 }) = Except.ok r ∧
      r.out = some o ∧
      (∀ i, i < 480 →
        o.get i = (halfEngine 0 (vectorOf (constBuf 1) 480)).2.get i
                * (globalsWithStrength (1 / 4)).reductionStrength
              + (constBuf 1).get i * (1 - (globalsWithStrength (1 / 4)).reductionStrength)) ∧
      ((globalsWithStrength (1 / 4)).reductionStrength = 0 →
        ∀ i, i < 480 → o.get i = (constBuf 1).get i) ∧
      ((globalsWithStrength (1 / 4)).reductionStrength = 1 →
        ∀ i, i < 480 → o.get i = (halfEngine 0 (vectorOf (constBuf 1) 480)).2.get i) :=
  ⟨rfl, blend_linearity Rat.sqrt halfEngine (globalsWithStrength (1 / 4)) (constBuf 1)
    (constBuf 0) { st := some 0 } 0 rfl⟩

/-- C2: with all three pointers present and a frame count other than 480 the callback
returns the same result whatever the engine is (the engine is not invoked), the processor
and its engine state are unchanged, and every output sample `i < framesPerBuffer` is the
input sample. -/
theorem size_mismatch_passthrough {F D : Type} [Zero F] [One F] [Add F] [Mul F] [Sub F]
    [Div F] [NatCast F] (sqrtf : F → F) (g : Globals F) (inp out : Buffer F) (n : Nat)
    (proc : RNNoiseProcessor D) (hn : n ≠ 480) :
    ∃ r o, (∀ e : D → Buffer F → D × Buffer F,
        paCallback sqrtf e g (some inp) (some out) n (some proc) = Except.ok r) ∧
      r.proc = some proc ∧ r.out = some o ∧ (∀ i, i < n → o.get i = inp.get i) ∧
      (∀ i, n ≤ i → o.get i = out.get i) := by
  refine ⟨_, _, fun e => paCallback_mismatch sqrtf e g inp out n proc hn, rfl, rfl, ?_, ?_⟩
  · intro i hi
    rw [copyThrough_apply, if_pos hi]
  · intro i hi
    rw [copyThrough_apply, if_neg (by omega)]

/-- The pass-through on a concrete 3-sample buffer. -/
theorem size_mismatch_passthrough_witness :
    ((3 : Nat) ≠ 480) ∧
    ∃ r o, (∀ e : Nat → Buffer ℚ → Nat × Buffer ℚ,
        paCallback Rat.sqrt e (initialGlobals ℚ) (some (constBuf 1)) (some (constBuf 0)) 3
          (some { st := some 7 }) = Except.ok r) ∧
      r.proc = some { st := some 7 } ∧ r.out = some o ∧
      (∀ i, i < 3 → o.get i = (constBuf 1).get i) ∧ (∀ i, 3 ≤ i → o.get i = (constBuf 0).get i) :=
  ⟨by decide, size_mismatch_passthrough Rat.sqrt (initialGlobals ℚ) (constBuf 1) (constBuf 0)
    3 { st := some 7 } (by decide)⟩

/-- C3, evaluated on the code.  With the output buffer present and the input buffer or
the processor absent, the callback returns `paContinue`, every output sample
`i < framesPerBuffer` is `0`, and the globals (strength, both levels, histories) and the
processor with its engine state are unchanged.  Every call that returns, returns
`paContinue`.  But the callback does not return on every input: with all three pointers
present, 480 frames and a null engine handle it calls `rnnoise_process_frame` on the null
handle and yields no return value, and that is the only such input. -/
theorem absent_buffer_silence {F D : Type} [Zero F] [One F] [Add F] [Mul F] [Sub F]
    [Div F] [NatCast F] (sqrtf : F → F) (e : D → Buffer F → D × Buffer F) (g : Globals F) :
    (∀ (inputBuffer : Option (Buffer F)) (out : Buffer F) (n : Nat)
        (userData : Option (RNNoiseProcessor D)),
        (inputBuffer = none ∨ userData = none) →
        ∃ r o, paCallback sqrtf e g inputBuffer (some out) n userData = Except.ok r ∧
          r.ret = paContinue ∧ r.out = some o ∧ (∀ i, i < n → o.get i = 0) ∧
          r.globals = g ∧ r.proc = userData) ∧
    (∀ (inputBuffer outputBuffer : Option (Buffer F)) (n : Nat)
        (userData : Option (RNNoiseProcessor D)),
        (∃ r, paCallback sqrtf e g inputBuffer outputBuffer n userData = Except.ok r ∧
          r.ret = paContinue) ∨
        ((∃ g1, paCallback sqrtf e g inputBuffer outputBuffer n userData
            = Except.error (Fault.nullDenoiseState g1)) ∧
          inputBuffer.isSome ∧ outputBuffer.isSome ∧ n = 480 ∧
          ∃ proc, userData = some proc ∧ proc.st = none)) ∧
    (∀ (inp out : Buffer F) (r : CallbackResult F D),
        paCallback sqrtf e g (some inp) (some out) 480 (some { st := none })
          ≠ Except.ok r) := by
  refine ⟨?_, ?_, ?_⟩
  · intro inputBuffer out n userData h
    refine ⟨_, _, paCallback_absent sqrtf e g inputBuffer out n userData h, rfl, rfl, ?_,
      rfl, rfl⟩
    intro i hi
    rw [zeroFill_apply, if_pos hi]
  · intro inputBuffer outputBuffer n userData
    cases hr : paCallback sqrtf e g inputBuffer outputBuffer n userData with
    | ok r => exact Or.inl ⟨r, rfl, paCallback_ret sqrtf e g _ _ _ _ r hr⟩
    | error f =>
      right
      cases outputBuffer with
      | none => rw [paCallback_no_output] at hr; cases hr
      | some out =>
        cases inputBuffer with
        | none =>
          rw [paCallback_absent sqrtf e g none out n userData (Or.inl rfl)] at hr
          cases hr
        | some inp =>
          cases userData with
          | none =>
            rw [paCallback_absent sqrtf e g (some inp) out n none (Or.inr rfl)] at hr
            cases hr
          | some proc =>
            by_cases hn : n = 480
            · subst hn
              cases hst : proc.st with
              | none =>
                cases f with
                | nullDenoiseState g1 => exact ⟨⟨g1, rfl⟩, rfl, rfl, rfl, proc, rfl, hst⟩
              | some d =>
                rw [paCallback_normal sqrtf e g inp out proc d hst] at hr
                cases hr
            · rw [paCallback_mismatch sqrtf e g inp out n proc hn] at hr
              cases hr
  · intro inp out r h
    rw [paCallback_null_state sqrtf e g inp out { st := none } rfl] at h
    cases h

/-- Silence on a 5-sample output buffer when both the input and the processor are null. -/
theorem absent_buffer_silence_witness :
    ((none : Option (Buffer ℚ)) = none ∨ (none : Option (RNNoiseProcessor Nat)) = none) ∧
    ∃ r o, paCallback Rat.sqrt halfEngine (globalsWithStrength (1 / 2)) none
        (some (constBuf 1)) 5 none = Except.ok r ∧
      r.ret = paContinue ∧ r.out = some o ∧ (∀ i, i < 5 → o.get i = 0) ∧
      r.globals = globalsWithStrength (1 / 2) ∧ r.proc = none :=
  ⟨Or.inl rfl, (absent_buffer_silence Rat.sqrt halfEngine (globalsWithStrength (1 / 2))).1
    none (constBuf 1) 5 none (Or.inl rfl)⟩

/-- The level of a frame whose first `n ≥ 1` samples all equal `A` is `|A|`, for a
square root with `sqrtf (x * x) = |x|`. -/
theorem rmsLevel_const {F : Type} [LinearOrderedField F] (sqrtf : F → F)
    (hsq : ∀ x, sqrtf (x * x) = |x|) (buf : Buffer F) (n : Nat) (A : F) (hn : 1 ≤ n)
    (hA : ∀ i, i < n → buf.get i = A) : rmsLevel sqrtf buf n = |A| := by
  have hsum : sumSquares buf n = (n : F) * (A * A) := by
    rw [sumSquares_eq_sum]
    rw [Finset.sum_congr rfl (fun i hi => by rw [hA i (Finset.mem_range.mp hi)])]
    simp [pow_two]
  have hne : (n : F) ≠ 0 := by
    have : (0 : F) < (n : F) := by exact_mod_cast hn
    exact ne_of_gt this
  rw [rmsLevel, hsum, mul_div_cancel_left₀ _ hne, hsq]

/-- C4 (as amended): the callback does not clamp the strength, it blends with the strength
exactly as stored.  On the normal path (all pointers present, 480 frames, valid engine
handle) with any stored strength `s`, below `0`, above `1` or in between, every output
sample `i < 480` is `denoised[i] * s + in[i] * (1 - s)`.  No law of arithmetic is used:
the statement holds for `float` as for any other sample type. -/
theorem strength_used_as_stored {F D : Type} [Zero F] [One F] [Add F] [Mul F] [Sub F]
    [Div F] [NatCast F] (sqrtf : F → F)
    (e : D → Buffer F → D × Buffer F) (g : Globals F) (inp out : Buffer F)
    (proc : RNNoiseProcessor D) (d : D) (s : F) (i : Nat)
    (hst : proc.st = some d) (hi : i < 480) :
    outSample (paCallback sqrtf e { g with reductionStrength := s } (some inp) (some out)
        480 (some proc)) i
      = some ((e d (vectorOf inp 480)).2.get i * s + inp.get i * (1 - s)) := by
  rw [paCallback_normal sqrtf e _ inp out proc d hst]
  simp [outSample, mixLoop_apply, writeFrame, FRAMES_PER_BUFFER, hi]

/-- The unclamped blend at strength `-1/2` on a frame of ones with a silent engine. -/
theorem strength_used_as_stored_witness :
    (({ st := some 0 } : RNNoiseProcessor Nat).st = some 0) ∧ (0 < 480) ∧
    outSample (paCallback Rat.sqrt silenceEngine
        { initialGlobals ℚ with reductionStrength := -1 / 2 } (some (constBuf 1))
        (some (constBuf 0)) 480 (some { st := some 0 })) 0
      = some ((silenceEngine 0 (vectorOf (constBuf 1) 480)).2.get 0 * (-1 / 2)
          + (constBuf 1).get 0 * (1 - -1 / 2)) :=
  ⟨rfl, by decide, strength_used_as_stored Rat.sqrt silenceEngine (initialGlobals ℚ)
    (constBuf 1) (constBuf 0) { st := some 0 } 0 (-1 / 2) 0 rfl (by decide)⟩

/-- The four output samples behind the C4 counterexample. -/
theorem strength_samples :
    outSample (paCallback Rat.sqrt silenceEngine (globalsWithStrength (-1 / 2))
        (some (constBuf 1)) (some (constBuf 0)) 480 (some { st := some 0 })) 0 = some (3 / 2) ∧
    outSample (paCallback Rat.sqrt silenceEngine (globalsWithStrength 0)
        (some (constBuf 1)) (some (constBuf 0)) 480 (some { st := some 0 })) 0 = some 1 ∧
    outSample (paCallback Rat.sqrt silenceEngine (globalsWithStrength (3 / 2))
        (some (constBuf 1)) (some (constBuf 0)) 480 (some { st := some 0 })) 0
      = some (-1 / 2) ∧
    outSample (paCallback Rat.sqrt silenceEngine (globalsWithStrength 1)
        (some (constBuf 1)) (some (constBuf 0)) 480 (some { st := some 0 })) 0 = some 0 := by
  refine ⟨?_, ?_, ?_, ?_⟩ <;>
    rw [paCallback_normal Rat.sqrt silenceEngine _ (constBuf 1) (constBuf 0)
      { st := some 0 } 0 rfl] <;>
    simp [outSample, mixLoop_apply, writeFrame, FRAMES_PER_BUFFER, silenceEngine, constBuf,
      globalsWithStrength, initialGlobals] <;>
    norm_num

/-- C4 fails as stated: on a 480-sample frame of ones with an engine returning silence, the
stored strength `-1/2 < 0` gives the first output sample `3/2` where strength `0` gives
`1`, and the stored strength `3/2 > 1` gives `-1/2` where strength `1` gives `0`. -/
theorem strength_clamp_counterexample :
    ((-1 / 2 : ℚ) < 0 ∧
      outSample (paCallback Rat.sqrt silenceEngine (globalsWithStrength (-1 / 2))
          (some (constBuf 1)) (some (constBuf 0)) 480 (some { st := some 0 })) 0
        ≠ outSample (paCallback Rat.sqrt silenceEngine (globalsWithStrength 0)
          (some (constBuf 1)) (some (constBuf 0)) 480 (some { st := some 0 })) 0) ∧
    ((1 : ℚ) < 3 / 2 ∧
      outSample (paCallback Rat.sqrt silenceEngine (globalsWithStrength (3 / 2))
          (some (constBuf 1)) (some (constBuf 0)) 480 (some { st := some 0 })) 0
        ≠ outSample (paCallback Rat.sqrt silenceEngine (globalsWithStrength 1)
          (some (constBuf 1)) (some (constBuf 0)) 480 (some { st := some 0 })) 0) := by
  obtain ⟨h1, h2, h3, h4⟩ := strength_samples
  rw [h1, h2, h3, h4]
  norm_num

/-- In exact arithmetic: with all three pointers present, a frame of `N ≥ 1` samples and
(when `N = 480`) a valid engine handle, the callback returns and the level it stores in
`inputLevel` is `sqrtf (mean (in[i]^2))`; it is never negative, it is `|A|` when all `N`
samples equal `A`, and it is `0` for an all-zero frame.  The square root is any function
with `sqrtf (x * x) = |x|` and `0 ≤ sqrtf x`. -/
theorem input_level_exact {F D : Type} [LinearOrderedField F] (sqrtf : F → F)
    (e : D → Buffer F → D × Buffer F) (g : Globals F) (inp out : Buffer F) (N : Nat)
    (proc : RNNoiseProcessor D)
    (hsq : ∀ x, sqrtf (x * x) = |x|) (hnn : ∀ x, 0 ≤ sqrtf x)
    (hN : 1 ≤ N) (hst : N = 480 → proc.st ≠ none) :
    ∃ r, paCallback sqrtf e g (some inp) (some out) N (some proc) = Except.ok r ∧
      r.globals.inputLevel = sqrtf ((∑ i in Finset.range N, inp.get i ^ 2) / (N : F)) ∧
      0 ≤ r.globals.inputLevel ∧
      (∀ A, (∀ i, i < N → inp.get i = A) → r.globals.inputLevel = |A|) ∧
      ((∀ i, i < N → inp.get i = 0) → r.globals.inputLevel = 0) := by
  have hlevel : ∃ r, paCallback sqrtf e g (some inp) (some out) N (some proc) = Except.ok r ∧
      r.globals.inputLevel = rmsLevel sqrtf inp N := by
    by_cases hn : N = 480
    · subst hn
      cases hd : proc.st with
      | none => exact absurd hd (hst rfl)
      | some d => exact ⟨_, paCallback_normal sqrtf e g inp out proc d hd, rfl⟩
    · exact ⟨_, paCallback_mismatch sqrtf e g inp out N proc hn, rfl⟩
  obtain ⟨r, hr, hl⟩ := hlevel
  refine ⟨r, hr, ?_, ?_, ?_, ?_⟩
  · rw [hl, rmsLevel, sumSquares_eq_sum]
  · rw [hl]
    exact hnn _
  · intro A hA
    rw [hl]
    exact rmsLevel_const sqrtf hsq inp N A hN hA
  · intro h0
    rw [hl, rmsLevel_const sqrtf hsq inp N 0 hN h0]
    simp

/-- The input level of a 3-sample frame of `-2` over the rationals. -/
theorem input_level_exact_witness :
    ((∀ x : ℚ, Rat.sqrt (x * x) = |x|) ∧ (∀ x : ℚ, 0 ≤ Rat.sqrt x) ∧ 1 ≤ 3 ∧
      ((3 : Nat) = 480 → ({ st := some 0 } : RNNoiseProcessor Nat).st ≠ none)) ∧
    ∃ r, paCallback Rat.sqrt halfEngine (initialGlobals ℚ) (some (constBuf (-2)))
        (some (constBuf 0)) 3 (some { st := some 0 }) = Except.ok r ∧
      r.globals.inputLevel
        = Rat.sqrt ((∑ i in Finset.range 3, (constBuf (-2 : ℚ)).get i ^ 2) / ((3 : Nat) : ℚ)) ∧
      0 ≤ r.globals.inputLevel ∧
      (∀ A, (∀ i, i < 3 → (constBuf (-2 : ℚ)).get i = A) → r.globals.inputLevel = |A|) ∧
      ((∀ i, i < 3 → (constBuf (-2 : ℚ)).get i = 0) → r.globals.inputLevel = 0) :=
  ⟨⟨Rat.sqrt_eq, Rat.sqrt_nonneg, by decide, by decide⟩,
    input_level_exact Rat.sqrt halfEngine (initialGlobals ℚ) (constBuf (-2)) (constBuf 0) 3
      { st := some 0 } Rat.sqrt_eq Rat.sqrt_nonneg (by decide) (by decide)⟩

/-- The level line 76 stores, on every call with the three pointers present: also on the
480-frame path with a null engine handle, where the store precedes the faulting call. -/
theorem paCallback_inputLevel {F D : Type} [Zero F] [One F] [Add F] [Mul F] [Sub F]
    [Div F] [NatCast F] (sqrtf : F → F) (e : D → Buffer F → D × Buffer F) (g : Globals F)
    (inp out : Buffer F) (N : Nat) (proc : RNNoiseProcessor D) :
    (globalsAfter (paCallback sqrtf e g (some inp) (some out) N (some proc))).inputLevel
      = sqrtf (sumSquares inp N / (N : F)) := by
  by_cases hn : N = 480
  · subst hn
    cases hd : proc.st with
    | none =>
      rw [paCallback_null_state sqrtf e g inp out proc hd]
      rfl
    | some d =>
      rw [paCallback_normal sqrtf e g inp out proc d hd]
      rfl
  · rw [paCallback_mismatch sqrtf e g inp out N proc hn]
    rfl

/-- The accumulation over an all-zero frame stays `0`, given `0 * 0 = 0` and
`0 + 0 = 0`. -/
theorem sumSquares_zero {F : Type} [Zero F] [Add F] [Mul F] (buf : Buffer F) (n : Nat)
    (h00 : (0 : F) * 0 = 0) (h0p : (0 : F) + 0 = 0) (hz : ∀ i, i < n → buf.get i = 0) :
    sumSquares buf n = 0 := by
  induction n with
  | zero => rfl
  | succ k ih =>
    have h : sumSquares buf (k + 1) = sumSquares buf k + buf.get k * buf.get k := by
      simp [sumSquares, forRange_succ]
    rw [h, ih (fun i hi => hz i (by omega)), hz k (by omega), h00, h0p]

/-! ## The `float` model: what its helpers compute -/

/-- The halving count is the binary logarithm: `2 ^ k ≤ n < 2 ^ (k + 1)`. -/
theorem log2F_spec (fuel n : Nat) (hf : n ≤ fuel) (hn : 1 ≤ n) :
    2 ^ log2F fuel n ≤ n ∧ n < 2 ^ (log2F fuel n + 1) := by
  induction fuel generalizing n with
  | zero => omega
  | succ f ih =>
    unfold log2F
    by_cases h2 : n < 2
    · have h1 : n = 1 := by omega
      subst h1
      simp
    · rw [if_neg h2]
      have hdiv : n / 2 ≤ f := by omega
      have hge : 1 ≤ n / 2 := by omega
      obtain ⟨hlo, hhi⟩ := ih (n / 2) hdiv hge
      constructor
      · have : 2 ^ (log2F f (n / 2) + 1) = 2 ^ log2F f (n / 2) * 2 := by
          rw [pow_succ]
        rw [this]
        omega
      · have : 2 ^ (log2F f (n / 2) + 1 + 1) = 2 ^ (log2F f (n / 2) + 1) * 2 := by
          rw [pow_succ]
        rw [this]
        omega

/-- The digit-by-digit loop keeps `acc² ≤ n < (acc + 2 ^ b)²` and so ends on the integer
square root. -/
theorem isqrtAux_spec (n b acc : Nat) (hlo : acc * acc ≤ n)
    (hhi : n < (acc + 2 ^ b) * (acc + 2 ^ b)) :
    isqrtAux n b acc * isqrtAux n b acc ≤ n ∧
      n < (isqrtAux n b acc + 1) * (isqrtAux n b acc + 1) := by
  induction b generalizing acc with
  | zero => simpa [isqrtAux] using And.intro hlo hhi
  | succ k ih =>
    unfold isqrtAux
    by_cases hc : (acc + 2 ^ k) * (acc + 2 ^ k) ≤ n
    · rw [if_pos hc]
      apply ih _ hc
      have : acc + 2 ^ k + 2 ^ k = acc + 2 ^ (k + 1) := by rw [pow_succ]; omega
      rw [this]
      exact hhi
    · rw [if_neg hc]
      exact ih _ hlo (by omega)

/-- The function `isqrt` is the integer square root: `r² ≤ n < (r + 1)²`. -/
theorem isqrt_spec (n : Nat) :
    isqrt n * isqrt n ≤ n ∧ n < (isqrt n + 1) * (isqrt n + 1) := by
  unfold isqrt
  apply isqrtAux_spec
  · simp
  · rcases Nat.eq_zero_or_pos n with h0 | hpos
    · subst h0
      simp
    · obtain ⟨_, hhi⟩ := log2F_spec n n (le_refl n) hpos
      have hexp : log2F n n + 1 ≤ 2 * (log2F n n / 2 + 1) := by omega
      have hpow : 2 ^ (log2F n n + 1) ≤ 2 ^ (2 * (log2F n n / 2 + 1)) :=
        Nat.pow_le_pow_right (by decide) hexp
      have hsq : (0 + 2 ^ (log2F n n / 2 + 1)) * (0 + 2 ^ (log2F n n / 2 + 1))
          = 2 ^ (2 * (log2F n n / 2 + 1)) := by
        rw [Nat.zero_add, ← pow_add]
        congr 1
        omega
      rw [hsq]
      omega

/-- The exponent found for a positive rational brackets it: `2 ^ e ≤ a < 2 ^ (e + 1)`. -/
theorem F32.ilog2_spec (a : ℚ) (ha : 0 < a) :
    (2 : ℚ) ^ F32.ilog2 a ≤ a ∧ a < (2 : ℚ) ^ (F32.ilog2 a + 1) := by
  have hnum : 0 < a.num := Rat.num_pos.mpr ha
  have hn1 : 1 ≤ a.num.natAbs := by omega
  have hd1 : 1 ≤ a.den := a.den_pos
  obtain ⟨n_lo, n_hi⟩ := log2F_spec a.num.natAbs a.num.natAbs (le_refl _) hn1
  obtain ⟨d_lo, d_hi⟩ := log2F_spec a.den a.den (le_refl _) hd1
  have hnq : (a.num.natAbs : ℚ) = (a.num : ℚ) := by
    have h : ((a.num.natAbs : ℤ)) = a.num := Int.natAbs_of_nonneg (le_of_lt hnum)
    rw [← Int.cast_natCast, h]
  have haeq : a = (a.num.natAbs : ℚ) / (a.den : ℚ) := by
    rw [hnq]
    exact (Rat.num_div_den a).symm
  have hdpos : (0 : ℚ) < (a.den : ℚ) := by exact_mod_cast hd1
  have n_lo' : (2 : ℚ) ^ (log2F a.num.natAbs a.num.natAbs) ≤ (a.num.natAbs : ℚ) := by
    exact_mod_cast n_lo
  have n_hi' : (a.num.natAbs : ℚ) < (2 : ℚ) ^ (log2F a.num.natAbs a.num.natAbs + 1) := by
    exact_mod_cast n_hi
  have d_lo' : (2 : ℚ) ^ (log2F a.den a.den) ≤ (a.den : ℚ) := by exact_mod_cast d_lo
  have d_hi' : (a.den : ℚ) < (2 : ℚ) ^ (log2F a.den a.den + 1) := by exact_mod_cast d_hi
  have h2 : (2 : ℚ) ≠ 0 := two_ne_zero
  have he0 : (2 : ℚ) ^ (((log2F a.num.natAbs a.num.natAbs : ℕ) : ℤ)
        - ((log2F a.den a.den : ℕ) : ℤ))
      = (2 : ℚ) ^ (log2F a.num.natAbs a.num.natAbs) / (2 : ℚ) ^ (log2F a.den a.den) := by
    rw [zpow_sub₀ h2, zpow_natCast, zpow_natCast]
  unfold F32.ilog2
  simp only []
  split_ifs with hlt
  · constructor
    · rw [zpow_sub₀ h2, he0, zpow_one, div_div, ← pow_succ]
      calc (2 : ℚ) ^ (log2F a.num.natAbs a.num.natAbs)
            / (2 : ℚ) ^ (log2F a.den a.den + 1)
          ≤ (a.num.natAbs : ℚ) / (a.den : ℚ) :=
            div_le_div₀ (by positivity) n_lo' hdpos (le_of_lt d_hi')
        _ = a := haeq.symm
    · rw [sub_add_cancel]
      exact hlt
  · constructor
    · exact not_lt.mp hlt
    · rw [zpow_add₀ h2, he0, zpow_one, div_mul_eq_mul_div, ← pow_succ]
      calc a = (a.num.natAbs : ℚ) / (a.den : ℚ) := haeq
        _ < (2 : ℚ) ^ (log2F a.num.natAbs a.num.natAbs + 1)
            / (2 : ℚ) ^ (log2F a.den a.den) :=
            div_lt_div₀ n_hi' d_lo' (by positivity) (by positivity)

/-- Rounding to the nearest integer never goes below the floor, so it keeps `m ≥ 1`
at `1` or above. -/
theorem F32.roundEven_pos (m : ℚ) (hm : 1 ≤ m) : 1 ≤ F32.roundEven m := by
  have hf : (1 : ℤ) ≤ ⌊m⌋ := Int.le_floor.mpr (by simpa using hm)
  unfold F32.roundEven
  simp only []
  split_ifs <;> omega

/-- A magnitude of at least `1` does not round to `0`. -/
theorem F32.roundMag_pos (a v : ℚ) (ha : 1 ≤ a) (h : F32.roundMag a = some v) : 0 < v := by
  have hapos : 0 < a := lt_of_lt_of_le one_pos ha
  have hu : (2 : ℚ) ^ (max (F32.ilog2 a) (-126) - 23) ≤ a := by
    rcases le_total (F32.ilog2 a) (-126) with hle | hge
    · rw [max_eq_right hle]
      exact le_trans (zpow_le_one_of_nonpos₀ one_le_two (by norm_num)) ha
    · rw [max_eq_left hge]
      exact le_trans (zpow_le_zpow_right₀ one_le_two (by omega)) (F32.ilog2_spec a hapos).1
  have hupos : (0 : ℚ) < (2 : ℚ) ^ (max (F32.ilog2 a) (-126) - 23) := by positivity
  have hm : 1 ≤ a / (2 : ℚ) ^ (max (F32.ilog2 a) (-126) - 23) :=
    (one_le_div hupos).mpr hu
  have hr := F32.roundEven_pos _ hm
  unfold F32.roundMag at h
  simp only [] at h
  split_ifs at h
  injection h with h
  rw [← h]
  have : (0 : ℚ) < (F32.roundEven (a / (2 : ℚ) ^ (max (F32.ilog2 a) (-126) - 23)) : ℚ) := by
    exact_mod_cast hr
  positivity

/-- In the `float` model `0 / N = 0` for every frame count `N ≥ 1`: the converted count is
a positive finite value or `+inf`. -/
theorem F32.zero_div_natCast (N : Nat) (hN : 1 ≤ N) : (0 : F32) / ((N : Nat) : F32) = 0 := by
  show F32.div (F32.fin 0) (F32.ofRat (N : ℚ)) = F32.fin 0
  have hq : (1 : ℚ) ≤ (N : ℚ) := by exact_mod_cast hN
  have hq0 : (N : ℚ) ≠ 0 := by positivity
  have hnn : ¬ (N : ℚ) < 0 := not_lt.mpr (by positivity)
  have habs : |(N : ℚ)| = (N : ℚ) := abs_of_nonneg (by positivity)
  unfold F32.ofRat
  rw [if_neg hq0, habs]
  cases h : F32.roundMag (N : ℚ) with
  | none => rfl
  | some v =>
    have hv : 0 < v := F32.roundMag_pos _ v hq h
    simp only [if_neg hnn]
    show (if v = 0 then (if (0 : ℚ) = 0 then F32.nan else F32.inf (decide ((0 : ℚ) < 0)))
      else F32.ofRat (0 / v)) = F32.fin 0
    rw [if_neg (ne_of_gt hv), zero_div]
    simp [F32.ofRat]

/-- The laws of `float` the all-zero frame needs. -/
theorem F32.zero_laws : (0 : F32) * 0 = 0 ∧ (0 : F32) + 0 = 0 ∧ F32.sqrt 0 = 0 := by
  decide!

/-- Known values of `float` arithmetic, reproduced by the model: `0.1f` is
`13421773 / 2 ^ 27` and `1/3` rounds to `11184811 / 2 ^ 25`; `2 ^ 24 + 1` and
`2 ^ 24 + 3` are ties and go to the even neighbours; `0.1f * 0.1f` is `10737419 / 2 ^ 30`;
`sqrtf 2` is `11863283 / 2 ^ 23`; the midpoint above the largest finite value overflows
and the value just below it does not; `2 ^ (-149)` is the smallest subnormal and
`2 ^ (-150)` rounds to `0`. -/
theorem F32.model_checks :
    F32.ofRat (1 / 10) = F32.fin (13421773 / 134217728) ∧
    F32.ofRat (1 / 3) = F32.fin (11184811 / 33554432) ∧
    F32.ofRat 16777217 = F32.fin 16777216 ∧
    F32.ofRat 16777219 = F32.fin 16777220 ∧
    tenth * tenth = F32.fin (10737419 / 1073741824) ∧
    F32.sqrt (F32.fin 2) = F32.fin (11863283 / 8388608) ∧
    F32.ofRat (2 ^ 128 - 2 ^ 103) = F32.inf false ∧
    F32.ofRat (2 ^ 128 - 2 ^ 103 - 1) = F32.fin (2 ^ 128 - 2 ^ 104) ∧
    F32.ofRat (1 / 2 ^ 149) = F32.fin (1 / 2 ^ 149) ∧
    F32.ofRat (1 / 2 ^ 150) = F32.fin 0 := by
  decide!

/-- The square root of the `float` model is never negative (it may be NaN, which compares
false with everything). -/
theorem F32.sqrt_not_neg (x : F32) : ¬ F32.sqrt x < 0 := by
  show ¬ F32.lt (F32.sqrt x) (F32.fin 0)
  cases x with
  | fin q =>
    by_cases h1 : q < 0
    · simp [F32.sqrt, h1, F32.lt]
    · by_cases h2 : q = 0
      · simp [F32.sqrt, h2, F32.lt]
      · simp only [F32.sqrt, if_neg h1, if_neg h2, F32.lt, not_lt]
        positivity
  | inf neg =>
    cases neg <;> simp [F32.sqrt, F32.lt]
  | nan => simp [F32.sqrt, F32.lt]

/-- The `float` facts used for an all-zero frame of three samples. -/
theorem F32.zero_frame_laws :
    (0 : F32) * 0 = 0 ∧ (0 : F32) + 0 = 0 ∧ (0 : F32) / ((3 : Nat) : F32) = 0 ∧
      F32.sqrt 0 = 0 := by
  decide!

set_option maxRecDepth 100000 in
/-- The `float` computation of lines 71-75 on 480 samples of `0.1f`: the accumulated sum
of squares divided by 480 and rooted is `6710897 / 2 ^ 26`, about `0.100000158`. -/
theorem F32.level_of_tenth :
    F32.sqrt (sumSquares (constBuf tenth) 480 / ((480 : Nat) : F32))
      = F32.fin (6710897 / 67108864) := by
  decide!

/-- The `float` computation of lines 71-75 on one sample `2 ^ 64`: the square overflows
to `+inf`. -/
theorem F32.level_of_huge :
    F32.sqrt (sumSquares (constBuf (F32.fin 18446744073709551616)) 1 / ((1 : Nat) : F32))
      = F32.inf false := by
  decide!

/-- The `float` computation of lines 71-75 on one sample `2 ^ (-100)`: the square
underflows to `0`. -/
theorem F32.level_of_tiny :
    F32.sqrt (sumSquares (constBuf (F32.fin (1 / 1267650600228229401496703205376))) 1
        / ((1 : Nat) : F32))
      = F32.fin 0 := by
  decide!

/-- C9 (as amended): in the size-mismatch fallback denoising is skipped but metering is
not.  With all three pointers present and a frame count other than 480, the callback
stores the RMS level of the input frame in `inputLevel` and the RMS level of the output,
which is the same value since the output is a copy, in `outputLevel`; the strength, the
histories and the cursor are unchanged. -/
theorem size_mismatch_still_meters {F D : Type} [Zero F] [One F] [Add F] [Mul F] [Sub F]
    [Div F] [NatCast F] (sqrtf : F → F) (e : D → Buffer F → D × Buffer F) (g : Globals F)
    (inp out : Buffer F) (n : Nat) (proc : RNNoiseProcessor D) (hn : n ≠ 480) :
    ∃ r, paCallback sqrtf e g (some inp) (some out) n (some proc) = Except.ok r ∧
      r.globals.inputLevel = sqrtf (sumSquares inp n / (n : F)) ∧
      r.globals.outputLevel = sqrtf (sumSquares inp n / (n : F)) ∧
      r.globals.reductionStrength = g.reductionStrength ∧
      r.globals.inputHistory = g.inputHistory ∧
      r.globals.outputHistory = g.outputHistory ∧
      r.globals.historyIndex = g.historyIndex := by
  refine ⟨_, paCallback_mismatch sqrtf e g inp out n proc hn, rfl, ?_, rfl, rfl, rfl, rfl⟩
  show rmsLevel sqrtf (copyThrough n inp out) n = sqrtf (sumSquares inp n / (n : F))
  rw [rmsLevel, sumSquares_congr (copyThrough n inp out) inp n]
  intro i hi
  rw [copyThrough_apply, if_pos hi]

/-- Metering on a one-sample buffer over the rationals. -/
theorem size_mismatch_still_meters_witness :
    ((1 : Nat) ≠ 480) ∧
    ∃ r, paCallback Rat.sqrt halfEngine (initialGlobals ℚ) (some (constBuf 1))
        (some (constBuf 0)) 1 (some { st := some 0 }) = Except.ok r ∧
      r.globals.inputLevel = Rat.sqrt (sumSquares (constBuf (1 : ℚ)) 1 / ((1 : Nat) : ℚ)) ∧
      r.globals.outputLevel = Rat.sqrt (sumSquares (constBuf (1 : ℚ)) 1 / ((1 : Nat) : ℚ)) ∧
      r.globals.reductionStrength = (initialGlobals ℚ).reductionStrength ∧
      r.globals.inputHistory = (initialGlobals ℚ).inputHistory ∧
      r.globals.outputHistory = (initialGlobals ℚ).outputHistory ∧
      r.globals.historyIndex = (initialGlobals ℚ).historyIndex :=
  ⟨by decide, size_mismatch_still_meters Rat.sqrt halfEngine (initialGlobals ℚ) (constBuf 1)
    (constBuf 0) 1 { st := some 0 } (by decide)⟩

/-- C9 fails as stated: a one-sample buffer holding `1`, delivered while both level cells
hold `0`, leaves `1` in `inputLevel` and in `outputLevel`. -/
theorem metering_skipped_counterexample :
    (1 : Nat) ≠ 480 ∧
    (globalsOf (paCallback Rat.sqrt halfEngine (initialGlobals ℚ) (some (constBuf 1))
        (some (constBuf 0)) 1 (some { st := some 0 }))).map (fun g => g.inputLevel) = some 1 ∧
    (globalsOf (paCallback Rat.sqrt halfEngine (initialGlobals ℚ) (some (constBuf 1))
        (some (constBuf 0)) 1 (some { st := some 0 }))).map (fun g => g.outputLevel) = some 1 ∧
    (initialGlobals ℚ).inputLevel = 0 ∧ (initialGlobals ℚ).outputLevel = 0 := by
  have h1 : rmsLevel Rat.sqrt (constBuf (1 : ℚ)) 1 = 1 := by
    rw [rmsLevel_const Rat.sqrt Rat.sqrt_eq (constBuf 1) 1 1 (le_refl 1) (fun _ _ => rfl)]
    simp
  have h2 : rmsLevel Rat.sqrt (copyThrough 1 (constBuf (1 : ℚ)) (constBuf 0)) 1 = 1 := by
    rw [rmsLevel_const Rat.sqrt Rat.sqrt_eq _ 1 1 (le_refl 1)
      (fun i hi => by rw [copyThrough_apply, if_pos hi]; rfl)]
    simp
  refine ⟨by decide, ?_, ?_, rfl, rfl⟩
  · rw [paCallback_mismatch Rat.sqrt halfEngine _ _ _ 1 _ (by decide)]
    simp [globalsOf, h1]
  · rw [paCallback_mismatch Rat.sqrt halfEngine _ _ _ 1 _ (by decide)]
    simp [globalsOf, h2]

/-- C7, evaluated on the code: with all three pointers present, 480 frames and a null
engine handle, `paCallback` calls `rnnoise_process_frame` on the null handle (a fault),
for every input frame and every strength; it does not pass the input through.
`RNNoiseProcessor::process` on the same processor returns early and leaves the frame and
the processor as they were. -/
theorem null_handle_reaches_engine {F D : Type} [Zero F] [One F] [Add F] [Mul F] [Sub F]
    [Div F] [NatCast F] (sqrtf : F → F) (e : D → Buffer F → D × Buffer F) (g : Globals F)
    (inp out : Buffer F) (strength : F) :
    paCallback sqrtf e { g with reductionStrength := strength } (some inp) (some out) 480
        (some { st := none })
      = Except.error (Fault.nullDenoiseState
          { g with reductionStrength := strength, inputLevel := rmsLevel sqrtf inp 480 }) ∧
    (∀ i, outSample (paCallback sqrtf e { g with reductionStrength := strength } (some inp)
        (some out) 480 (some { st := none })) i = none) ∧
    RNNoiseProcessor.process e { st := none } inp 480 strength = (inp, { st := none }) := by
  have h := paCallback_null_state sqrtf e { g with reductionStrength := strength } inp out
    { st := none } rfl
  refine ⟨h, ?_, rfl⟩
  intro i
  rw [h]
  rfl

/-! ## The history ring -/

theorem historyRun_concat {F : Type} [Mul F] [NatCast F] (levels : List (F × F)) (l : F × F)
    (g : Globals F) :
    historyRun (levels ++ [l]) g
      = updateHistory { historyRun levels g with inputLevel := l.1, outputLevel := l.2 } := by
  simp [historyRun, List.foldl_append]

/-- The state of the ring after the updates for `levels`, starting from the initial
globals: the cursor is the number of updates modulo 100, push `k` is in slot `k % 100` as
long as it is among the last 100, and slots never reached are still zero. -/
theorem historyRun_invariant {F : Type} [Zero F] [One F] [Mul F] [NatCast F]
    (levels : List (F × F)) :
    (historyRun levels (initialGlobals F)).historyIndex = levels.length % 100 ∧
    (∀ k p, levels[k]? = some p → levels.length ≤ k + 100 →
      (historyRun levels (initialGlobals F)).inputHistory.get (k % 100) = p.1 * ((10 : Nat) : F) ∧
      (historyRun levels (initialGlobals F)).outputHistory.get (k % 100)
        = p.2 * ((10 : Nat) : F)) ∧
    (∀ j, levels.length ≤ j →
      (historyRun levels (initialGlobals F)).inputHistory.get j = 0 ∧
      (historyRun levels (initialGlobals F)).outputHistory.get j = 0) := by
  induction levels using List.reverseRecOn with
  | nil =>
    refine ⟨rfl, ?_, ?_⟩
    · intro k p hk
      simp at hk
    · intro j _
      exact ⟨rfl, rfl⟩
  | append_singleton ls l ih =>
    obtain ⟨hidx, hrecent, hzero⟩ := ih
    rw [historyRun_concat]
    have hlen : (ls ++ [l]).length = ls.length + 1 := by simp
    refine ⟨?_, ?_, ?_⟩
    · simp only [updateHistory, HISTORY_SIZE, hidx, hlen]
      omega
    · intro k p hk hle
      rw [hlen] at hle
      simp only [updateHistory, hidx, store]
      by_cases hkn : k = ls.length
      · subst hkn
        have hp : p = l := by
          simp at hk
          exact hk.symm
        subst hp
        simp
      · have hklt : k < ls.length := by
          have := (List.getElem?_eq_some_iff.mp hk).1
          rw [hlen] at this
          omega
        have hne : k % 100 ≠ ls.length % 100 := by omega
        rw [if_neg hne, if_neg hne]
        apply hrecent k p
        · rw [List.getElem?_append_left hklt] at hk
          exact hk
        · omega
    · intro j hj
      rw [hlen] at hj
      have hmod : ls.length % 100 ≤ ls.length := Nat.mod_le _ _
      have hne : j ≠ ls.length % 100 := by omega
      simp only [updateHistory, hidx, store]
      rw [if_neg hne, if_neg hne]
      exact hzero j (by omega)

/-- C6: the history update is a ring-buffer push.  One update writes only the slot at the
cursor, in both arrays, and moves the cursor to `(cursor + 1) % 100`.  Starting from the
initial globals, after the updates for any list of `n` level pairs the cursor is
`n % 100 < 100`, each of the last `min n 100` pushes `k` is held in slot `k % 100` of its
array (the value pushed is the level times 10), and the slots `n ≤ j < 100` not reached
yet still hold `0`. -/
theorem history_ring_push {F : Type} [Zero F] [One F] [Mul F] [NatCast F] :
    (∀ g : Globals F,
      (∀ j, j ≠ g.historyIndex →
        (updateHistory g).inputHistory.get j = g.inputHistory.get j ∧
        (updateHistory g).outputHistory.get j = g.outputHistory.get j) ∧
      (updateHistory g).inputHistory.get g.historyIndex = g.inputLevel * ((10 : Nat) : F) ∧
      (updateHistory g).outputHistory.get g.historyIndex = g.outputLevel * ((10 : Nat) : F) ∧
      (updateHistory g).historyIndex = (g.historyIndex + 1) % 100) ∧
    (∀ levels : List (F × F),
      (historyRun levels (initialGlobals F)).historyIndex = levels.length % 100 ∧
      (historyRun levels (initialGlobals F)).historyIndex < 100 ∧
      (∀ k p, levels[k]? = some p → levels.length - min levels.length 100 ≤ k →
        (historyRun levels (initialGlobals F)).inputHistory.get (k % 100)
          = p.1 * ((10 : Nat) : F) ∧
        (historyRun levels (initialGlobals F)).outputHistory.get (k % 100)
          = p.2 * ((10 : Nat) : F)) ∧
      (∀ j, levels.length ≤ j → j < 100 →
        (historyRun levels (initialGlobals F)).inputHistory.get j = 0 ∧
        (historyRun levels (initialGlobals F)).outputHistory.get j = 0)) := by
  constructor
  · intro g
    refine ⟨?_, ?_, ?_, rfl⟩
    · intro j hj
      simp [updateHistory, store, hj]
    · simp [updateHistory, store]
    · simp [updateHistory, store]
  · intro levels
    obtain ⟨hidx, hrecent, hzero⟩ := historyRun_invariant levels
    refine ⟨hidx, ?_, ?_, ?_⟩
    · rw [hidx]
      exact Nat.mod_lt _ (by decide)
    · intro k p hk hle
      exact hrecent k p hk (by omega)
    · intro j hj _
      exact hzero j hj

/-- C8 (as amended): one normal-path invocation on a 480-sample frame stores the two RMS
levels and leaves both history arrays and the cursor as they were; the callback does not
push.  The next history update of the main loop writes ten times the stored input level
and ten times the stored output level at the cursor, one new entry per array, and
advances the cursor. -/
theorem history_entry_after_callback {F D : Type} [Zero F] [One F] [Add F] [Mul F] [Sub F]
    [Div F] [NatCast F] (sqrtf : F → F) (e : D → Buffer F → D × Buffer F) (g : Globals F)
    (inp out : Buffer F) (proc : RNNoiseProcessor D) (d : D) (hst : proc.st = some d) :
    ∃ r o, paCallback sqrtf e g (some inp) (some out) 480 (some proc) = Except.ok r ∧
      r.out = some o ∧
      r.globals.inputLevel = rmsLevel sqrtf inp 480 ∧
      r.globals.outputLevel = rmsLevel sqrtf o 480 ∧
      r.globals.inputHistory = g.inputHistory ∧
      r.globals.outputHistory = g.outputHistory ∧
      r.globals.historyIndex = g.historyIndex ∧
      (updateHistory r.globals).inputHistory.get g.historyIndex
        = rmsLevel sqrtf inp 480 * ((10 : Nat) : F) ∧
      (updateHistory r.globals).outputHistory.get g.historyIndex
        = rmsLevel sqrtf o 480 * ((10 : Nat) : F) ∧
      (updateHistory r.globals).historyIndex = (g.historyIndex + 1) % 100 ∧
      (∀ j, j ≠ g.historyIndex →
        (updateHistory r.globals).inputHistory.get j = g.inputHistory.get j ∧
        (updateHistory r.globals).outputHistory.get j = g.outputHistory.get j) := by
  refine ⟨_, _, paCallback_normal sqrtf e g inp out proc d hst, rfl, rfl, rfl, rfl, rfl, rfl,
    ?_, ?_, rfl, ?_⟩
  · simp [updateHistory, store]
  · simp [updateHistory, store]
  · intro j hj
    simp [updateHistory, store, hj]

/-- The callback and one history update on a frame of ones over the rationals. -/
theorem history_entry_after_callback_witness :
    (({ st := some 0 } : RNNoiseProcessor Nat).st = some 0) ∧
    ∃ r o, paCallback Rat.sqrt halfEngine (initialGlobals ℚ) (some (constBuf 1))
        (some (constBuf 0)) 480 (some { st := some 0 }) = Except.ok r ∧
      r.out = some o ∧
      r.globals.inputLevel = rmsLevel Rat.sqrt (constBuf 1) 480 ∧
      r.globals.outputLevel = rmsLevel Rat.sqrt o 480 ∧
      r.globals.inputHistory = (initialGlobals ℚ).inputHistory ∧
      r.globals.outputHistory = (initialGlobals ℚ).outputHistory ∧
      r.globals.historyIndex = (initialGlobals ℚ).historyIndex ∧
      (updateHistory r.globals).inputHistory.get (initialGlobals ℚ).historyIndex
        = rmsLevel Rat.sqrt (constBuf 1) 480 * ((10 : Nat) : ℚ) ∧
      (updateHistory r.globals).outputHistory.get (initialGlobals ℚ).historyIndex
        = rmsLevel Rat.sqrt o 480 * ((10 : Nat) : ℚ) ∧
      (updateHistory r.globals).historyIndex = ((initialGlobals ℚ).historyIndex + 1) % 100 ∧
      (∀ j, j ≠ (initialGlobals ℚ).historyIndex →
        (updateHistory r.globals).inputHistory.get j = (initialGlobals ℚ).inputHistory.get j ∧
        (updateHistory r.globals).outputHistory.get j = (initialGlobals ℚ).outputHistory.get j) :=
  ⟨rfl, history_entry_after_callback Rat.sqrt halfEngine (initialGlobals ℚ) (constBuf 1)
    (constBuf 0) { st := some 0 } 0 rfl⟩

/-- C8 fails as stated: from the initial globals (strength 1), a 480-sample frame of ones
and the halving engine give the input level `1` and the output level `1/2`; after the
callback slot 0 of both histories still holds `0` and the cursor is still `0`, and after
the next history update of the main loop the slots hold `10` and `5`, not `1` and `1/2`. -/
theorem history_entry_counterexample :
    ∃ r, paCallback Rat.sqrt halfEngine (initialGlobals ℚ) (some (constBuf 1))
        (some (constBuf 0)) 480 (some { st := some 0 }) = Except.ok r ∧
      r.globals.inputLevel = 1 ∧ r.globals.outputLevel = 1 / 2 ∧
      r.globals.historyIndex = 0 ∧
      r.globals.inputHistory.get 0 = 0 ∧ r.globals.outputHistory.get 0 = 0 ∧
      r.globals.inputHistory.get 0 ≠ r.globals.inputLevel ∧
      r.globals.outputHistory.get 0 ≠ r.globals.outputLevel ∧
      (updateHistory r.globals).inputHistory.get 0 = 10 ∧
      (updateHistory r.globals).outputHistory.get 0 = 5 ∧
      (updateHistory r.globals).inputHistory.get 0 ≠ r.globals.inputLevel ∧
      (updateHistory r.globals).outputHistory.get 0 ≠ r.globals.outputLevel := by
  have hin : rmsLevel Rat.sqrt (constBuf (1 : ℚ)) 480 = 1 := by
    rw [rmsLevel_const Rat.sqrt Rat.sqrt_eq (constBuf 1) 480 1 (by decide) (fun _ _ => rfl)]
    simp
  have hout : rmsLevel Rat.sqrt
      (mixLoop 480 (initialGlobals ℚ).reductionStrength (constBuf 1)
        (writeFrame (halfEngine 0 (vectorOf (constBuf 1) 480)).2 (constBuf 0))) 480
      = 1 / 2 := by
    rw [rmsLevel_const Rat.sqrt Rat.sqrt_eq _ 480 (1 / 2) (by decide)]
    · rw [abs_of_pos (by norm_num)]
    · intro i hi
      rw [mixLoop_apply, if_pos hi]
      simp [writeFrame, FRAMES_PER_BUFFER, hi, halfEngine, vectorOf, constBuf, initialGlobals]
  refine ⟨_, paCallback_normal Rat.sqrt halfEngine (initialGlobals ℚ) (constBuf 1)
    (constBuf 0) { st := some 0 } 0 rfl, hin, hout, rfl, rfl, rfl, ?_, ?_, ?_, ?_, ?_, ?_⟩
  · show (0 : ℚ) ≠ rmsLevel Rat.sqrt (constBuf 1) 480
    rw [hin]; norm_num
  · show (0 : ℚ) ≠ rmsLevel Rat.sqrt _ 480
    rw [hout]; norm_num
  · simp only [updateHistory, store, hin]
    simp [initialGlobals]
  · simp only [updateHistory, store, hout]
    simp [initialGlobals]
    norm_num
  · simp only [updateHistory, store, hin]
    simp [initialGlobals]
  · simp only [updateHistory, store, hout]
    simp [initialGlobals]

/-! ## Device selection -/

theorem startsWith_iff (s pat : List Char) : startsWith s pat = true ↔ pat <+: s := by
  induction s generalizing pat with
  | nil =>
    cases pat with
    | nil => simp [startsWith]
    | cons p ps => simp [startsWith]
  | cons c cs ih =>
    cases pat with
    | nil => simp [startsWith]
    | cons p ps =>
      simp only [startsWith, Bool.and_eq_true, beq_iff_eq, List.cons_prefix_cons, ih]
      constructor
      · rintro ⟨h1, h2⟩
        exact ⟨h1.symm, h2⟩
      · rintro ⟨h1, h2⟩
        exact ⟨h1.symm, h2⟩

/-- The search `findSub` finds `pat` exactly when `pat` is a contiguous part of `s`. -/
theorem findSub_iff (s pat : List Char) : findSub s pat = true ↔ pat <:+: s := by
  induction s with
  | nil =>
    rw [findSub, startsWith_iff]
    simp
  | cons c cs ih =>
    rw [findSub, Bool.or_eq_true, startsWith_iff, ih, List.infix_cons_iff]

theorem isPreferred_iff (name : String) : isPreferred name = true ↔ PreferredName name := by
  simp only [isPreferred, nameContains, Bool.or_eq_true, findSub_iff, PreferredName,
    String.toList, or_assoc]

/-- A loop whose body sets a component to `i` when the test holds at `i` and the component
is still `-1` ends with the first index passing the test, keeps a component that was
already set, and leaves `-1` when no index passes. -/
theorem first_match_loop {σ : Type} (q : Nat → Bool) (proj : σ → Int) (body : Nat → σ → σ)
    (hbody : ∀ i c, proj (body i c) = if q i && proj c == -1 then (i : Int) else proj c)
    (k : Nat) (c : σ) :
    (proj c ≠ -1 → proj (forRange k body c) = proj c) ∧
    (proj c = -1 → (∀ i, i < k → q i = false) → proj (forRange k body c) = -1) ∧
    (proj c = -1 → ∀ i, i < k → q i = true → (∀ j, j < i → q j = false) →
      proj (forRange k body c) = (i : Int)) := by
  induction k with
  | zero =>
    refine ⟨fun _ => rfl, fun h _ => h, ?_⟩
    intro _ i hi
    omega
  | succ n ih =>
    obtain ⟨ih1, ih2, ih3⟩ := ih
    rw [forRange_succ, hbody]
    refine ⟨?_, ?_, ?_⟩
    · intro hc
      rw [ih1 hc]
      have : (proj c == -1) = false := by simpa using hc
      simp [this]
    · intro hc hall
      rw [ih2 hc (fun i hi => hall i (by omega)), hall n (by omega)]
      simp
    · intro hc i hi hq hleast
      by_cases hin : i = n
      · subst hin
        rw [ih2 hc hleast, hq]
        simp
      · have hlt : i < n := by omega
        rw [ih3 hc i hlt hq hleast]
        have : ((i : Int) == -1) = false := by
          simp only [beq_eq_false_iff_ne, ne_eq]
          omega
        simp [this]

theorem firstPassBody_input (info : Int → Option PaDeviceInfo) (i : Nat) (c : DeviceChoice) :
    (firstPassBody info i c).inputDevice
      = if devTest info (fun d => isPreferred d.name && decide (d.maxInputChannels > 0)) i
            && c.inputDevice == -1 then (i : Int) else c.inputDevice := by
  unfold firstPassBody devTest
  cases info (i : Int) with
  | none => simp
  | some d =>
    simp only [Bool.and_eq_true, decide_eq_true_eq, beq_iff_eq]
    split_ifs <;> simp_all

theorem firstPassBody_output (info : Int → Option PaDeviceInfo) (i : Nat) (c : DeviceChoice) :
    (firstPassBody info i c).outputDevice
      = if devTest info (fun d => isPreferred d.name && decide (d.maxOutputChannels > 0)) i
            && c.outputDevice == -1 then (i : Int) else c.outputDevice := by
  unfold firstPassBody devTest
  cases info (i : Int) with
  | none => simp
  | some d =>
    simp only [Bool.and_eq_true, decide_eq_true_eq, beq_iff_eq]
    split_ifs <;> simp_all

theorem secondPassBody_input (info : Int → Option PaDeviceInfo) (i : Nat) (c : DeviceChoice) :
    (secondPassBody info i c).inputDevice
      = if devTest info (fun d => decide (d.maxInputChannels > 0)) i
            && c.inputDevice == -1 then (i : Int) else c.inputDevice := by
  unfold secondPassBody devTest
  cases info (i : Int) with
  | none => simp
  | some d =>
    simp only [Bool.and_eq_true, decide_eq_true_eq, beq_iff_eq]
    split_ifs <;> simp_all

theorem secondPassBody_output (info : Int → Option PaDeviceInfo) (i : Nat) (c : DeviceChoice) :
    (secondPassBody info i c).outputDevice
      = if devTest info (fun d => decide (d.maxOutputChannels > 0)) i
            && c.outputDevice == -1 then (i : Int) else c.outputDevice := by
  unfold secondPassBody devTest
  cases info (i : Int) with
  | none => simp
  | some d =>
    simp only [Bool.and_eq_true, decide_eq_true_eq, beq_iff_eq]
    split_ifs <;> simp_all

theorem deviceSat_iff (numDevices : Int) (info : Int → Option PaDeviceInfo)
    (P : PaDeviceInfo → Prop) (q : PaDeviceInfo → Bool) (hq : ∀ d, q d = true ↔ P d)
    (i : Nat) :
    DeviceSat numDevices info P i ↔ (i < numDevices.toNat ∧ devTest info q i = true) := by
  unfold DeviceSat devTest
  constructor
  · rintro ⟨hlt, d, hd, hp⟩
    refine ⟨by omega, ?_⟩
    rw [hd]
    exact (hq d).mpr hp
  · rintro ⟨hlt, ht⟩
    refine ⟨by omega, ?_⟩
    cases hd : info (i : Int) with
    | none => rw [hd] at ht; cases ht
    | some d =>
      rw [hd] at ht
      exact ⟨d, rfl, (hq d).mp ht⟩

/-- The two-pass search on one direction: `x1` is what the first pass leaves, `x` what the
whole selection leaves. -/
theorem two_pass_policy (q1 q2 : Nat → Bool) (n : Nat) (x1 x : Int)
    (himp : ∀ i, q1 i = true → q2 i = true)
    (h1a : (∀ i, i < n → q1 i = false) → x1 = -1)
    (h1b : ∀ i, i < n → q1 i = true → (∀ j, j < i → q1 j = false) → x1 = (i : Int))
    (h2a : x1 ≠ -1 → x = x1)
    (h2b : x1 = -1 → (∀ i, i < n → q2 i = false) → x = -1)
    (h2c : x1 = -1 → ∀ i, i < n → q2 i = true → (∀ j, j < i → q2 j = false) → x = (i : Int)) :
    ((∃ i, i < n ∧ q1 i = true) →
      ∃ k : Nat, x = (k : Int) ∧ (k < n ∧ q1 k = true) ∧ ∀ j, j < k → ¬ (j < n ∧ q1 j = true)) ∧
    ((¬ ∃ i, i < n ∧ q1 i = true) → (∃ i, i < n ∧ q2 i = true) →
      ∃ k : Nat, x = (k : Int) ∧ (k < n ∧ q2 k = true) ∧ ∀ j, j < k → ¬ (j < n ∧ q2 j = true)) ∧
    ((¬ ∃ i, i < n ∧ q2 i = true) → x = -1) := by
  have least : ∀ q : Nat → Bool, (∃ i, i < n ∧ q i = true) →
      ∃ k, (k < n ∧ q k = true) ∧ ∀ j, j < k → q j = false := by
    intro q hex
    refine ⟨Nat.find hex, Nat.find_spec hex, ?_⟩
    intro j hj
    have hmin := Nat.find_min hex hj
    have hlt : j < n := lt_trans hj (Nat.find_spec hex).1
    cases hqj : q j with
    | false => rfl
    | true => exact absurd ⟨hlt, hqj⟩ hmin
  have none_false : ∀ q : Nat → Bool, (¬ ∃ i, i < n ∧ q i = true) →
      ∀ i, i < n → q i = false := by
    intro q hno i hi
    cases hqi : q i with
    | false => rfl
    | true => exact absurd ⟨i, hi, hqi⟩ hno
  refine ⟨?_, ?_, ?_⟩
  · intro hex
    obtain ⟨k, hk, hmin⟩ := least q1 hex
    have hx1 : x1 = (k : Int) := h1b k hk.1 hk.2 hmin
    have hne : x1 ≠ -1 := by omega
    refine ⟨k, by rw [h2a hne, hx1], hk, ?_⟩
    intro j hj hcon
    rw [hmin j hj] at hcon
    exact Bool.noConfusion hcon.2
  · intro hno hex
    obtain ⟨k, hk, hmin⟩ := least q2 hex
    have hx1 : x1 = -1 := h1a (none_false q1 hno)
    refine ⟨k, h2c hx1 k hk.1 hk.2 hmin, hk, ?_⟩
    intro j hj hcon
    rw [hmin j hj] at hcon
    exact Bool.noConfusion hcon.2
  · intro hno
    have hno1 : ¬ ∃ i, i < n ∧ q1 i = true := by
      rintro ⟨i, hi, hq⟩
      exact hno ⟨i, hi, himp i hq⟩
    exact h2b (h1a (none_false q1 hno1)) (none_false q2 hno)

/-- The input index `selectDevices` returns, in terms of the two loops. -/
theorem selectDevices_input (numDevices : Int) (info : Int → Option PaDeviceInfo) :
    let x1 := (forRange numDevices.toNat (firstPassBody info)
      { inputDevice := -1, outputDevice := -1 }).inputDevice
    let x := (selectDevices numDevices info).inputDevice
    ((∀ i, i < numDevices.toNat →
        devTest info (fun d => isPreferred d.name && decide (d.maxInputChannels > 0)) i
          = false) → x1 = -1) ∧
    (∀ i, i < numDevices.toNat →
        devTest info (fun d => isPreferred d.name && decide (d.maxInputChannels > 0)) i
          = true →
        (∀ j, j < i →
          devTest info (fun d => isPreferred d.name && decide (d.maxInputChannels > 0)) j
            = false) → x1 = (i : Int)) ∧
    (x1 ≠ -1 → x = x1) ∧
    (x1 = -1 → (∀ i, i < numDevices.toNat →
        devTest info (fun d => decide (d.maxInputChannels > 0)) i = false) → x = -1) ∧
    (x1 = -1 → ∀ i, i < numDevices.toNat →
        devTest info (fun d => decide (d.maxInputChannels > 0)) i = true →
        (∀ j, j < i → devTest info (fun d => decide (d.maxInputChannels > 0)) j = false) →
        x = (i : Int)) := by
  intro x1 x
  have hfirst := first_match_loop _ DeviceChoice.inputDevice (firstPassBody info)
    (firstPassBody_input info) numDevices.toNat { inputDevice := -1, outputDevice := -1 }
  have hsecond := first_match_loop _ DeviceChoice.inputDevice (secondPassBody info)
    (secondPassBody_input info) numDevices.toNat
    (forRange numDevices.toNat (firstPassBody info) { inputDevice := -1, outputDevice := -1 })
  refine ⟨hfirst.2.1 rfl, hfirst.2.2 rfl, ?_, ?_, ?_⟩
  · intro hne
    show (selectDevices numDevices info).inputDevice = x1
    unfold selectDevices
    simp only []
    split_ifs
    · exact hsecond.1 hne
    · rfl
  · intro heq hall
    show (selectDevices numDevices info).inputDevice = -1
    unfold selectDevices
    simp only []
    have hx : (forRange numDevices.toNat (firstPassBody info)
      { inputDevice := -1, outputDevice := -1 }).inputDevice = -1 := heq
    rw [if_pos (by simp [hx])]
    exact hsecond.2.1 heq hall
  · intro heq i hi hq hleast
    show (selectDevices numDevices info).inputDevice = (i : Int)
    unfold selectDevices
    simp only []
    have hx : (forRange numDevices.toNat (firstPassBody info)
      { inputDevice := -1, outputDevice := -1 }).inputDevice = -1 := heq
    rw [if_pos (by simp [hx])]
    exact hsecond.2.2 heq i hi hq hleast

/-- The output index `selectDevices` returns, in terms of the two loops. -/
theorem selectDevices_output (numDevices : Int) (info : Int → Option PaDeviceInfo) :
    let x1 := (forRange numDevices.toNat (firstPassBody info)
      { inputDevice := -1, outputDevice := -1 }).outputDevice
    let x := (selectDevices numDevices info).outputDevice
    ((∀ i, i < numDevices.toNat →
        devTest info (fun d => isPreferred d.name && decide (d.maxOutputChannels > 0)) i
          = false) → x1 = -1) ∧
    (∀ i, i < numDevices.toNat →
        devTest info (fun d => isPreferred d.name && decide (d.maxOutputChannels > 0)) i
          = true →
        (∀ j, j < i →
          devTest info (fun d => isPreferred d.name && decide (d.maxOutputChannels > 0)) j
            = false) → x1 = (i : Int)) ∧
    (x1 ≠ -1 → x = x1) ∧
    (x1 = -1 → (∀ i, i < numDevices.toNat →
        devTest info (fun d => decide (d.maxOutputChannels > 0)) i = false) → x = -1) ∧
    (x1 = -1 → ∀ i, i < numDevices.toNat →
        devTest info (fun d => decide (d.maxOutputChannels > 0)) i = true →
        (∀ j, j < i → devTest info (fun d => decide (d.maxOutputChannels > 0)) j = false) →
        x = (i : Int)) := by
  intro x1 x
  have hfirst := first_match_loop _ DeviceChoice.outputDevice (firstPassBody info)
    (firstPassBody_output info) numDevices.toNat { inputDevice := -1, outputDevice := -1 }
  have hsecond := first_match_loop _ DeviceChoice.outputDevice (secondPassBody info)
    (secondPassBody_output info) numDevices.toNat
    (forRange numDevices.toNat (firstPassBody info) { inputDevice := -1, outputDevice := -1 })
  refine ⟨hfirst.2.1 rfl, hfirst.2.2 rfl, ?_, ?_, ?_⟩
  · intro hne
    show (selectDevices numDevices info).outputDevice = x1
    unfold selectDevices
    simp only []
    split_ifs
    · exact hsecond.1 hne
    · rfl
  · intro heq hall
    show (selectDevices numDevices info).outputDevice = -1
    unfold selectDevices
    simp only []
    have hx : (forRange numDevices.toNat (firstPassBody info)
      { inputDevice := -1, outputDevice := -1 }).outputDevice = -1 := heq
    rw [if_pos (by simp [hx])]
    exact hsecond.2.1 heq hall
  · intro heq i hi hq hleast
    show (selectDevices numDevices info).outputDevice = (i : Int)
    unfold selectDevices
    simp only []
    have hx : (forRange numDevices.toNat (firstPassBody info)
      { inputDevice := -1, outputDevice := -1 }).outputDevice = -1 := heq
    rw [if_pos (by simp [hx])]
    exact hsecond.2.2 heq i hi hq hleast

theorem prefIn_iff (d : PaDeviceInfo) :
    (isPreferred d.name && decide (d.maxInputChannels > 0)) = true
      ↔ (PreferredName d.name ∧ 0 < d.maxInputChannels) := by
  simp [isPreferred_iff]

theorem prefOut_iff (d : PaDeviceInfo) :
    (isPreferred d.name && decide (d.maxOutputChannels > 0)) = true
      ↔ (PreferredName d.name ∧ 0 < d.maxOutputChannels) := by
  simp [isPreferred_iff]

theorem anyIn_iff (d : PaDeviceInfo) :
    decide (d.maxInputChannels > 0) = true ↔ 0 < d.maxInputChannels := by
  simp

theorem anyOut_iff (d : PaDeviceInfo) :
    decide (d.maxOutputChannels > 0) = true ↔ 0 < d.maxOutputChannels := by
  simp

/-- The selection on the sample device table: the PulseAudio device, index 2, for both
directions, although device 0 is the first one with input channels. -/
theorem selectDevices_sample :
    selectDevices 4 sampleDevices = { inputDevice := 2, outputDevice := 2 } := by
  decide

/-- C10: device selection follows the stated policy for every device table.  The input
device is the lowest-index device whose name contains "pipewire", "pulse" or "default" and
that has `maxInputChannels > 0` when there is one, otherwise the lowest-index device with
`maxInputChannels > 0`, otherwise `-1`; the output device is chosen in the same way from
`maxOutputChannels`, whatever the input choice is; and the stream is opened exactly when
neither index is `-1`. -/
theorem device_selection_policy (numDevices : Int) (info : Int → Option PaDeviceInfo) :
    ((∃ i, DeviceSat numDevices info
          (fun d => PreferredName d.name ∧ 0 < d.maxInputChannels) i) →
      ∃ k : Nat, (selectDevices numDevices info).inputDevice = (k : Int) ∧
        LowestDevice numDevices info
          (fun d => PreferredName d.name ∧ 0 < d.maxInputChannels) k) ∧
    ((¬ ∃ i, DeviceSat numDevices info
          (fun d => PreferredName d.name ∧ 0 < d.maxInputChannels) i) →
      (∃ i, DeviceSat numDevices info (fun d => 0 < d.maxInputChannels) i) →
      ∃ k : Nat, (selectDevices numDevices info).inputDevice = (k : Int) ∧
        LowestDevice numDevices info (fun d => 0 < d.maxInputChannels) k) ∧
    ((¬ ∃ i, DeviceSat numDevices info (fun d => 0 < d.maxInputChannels) i) →
      (selectDevices numDevices info).inputDevice = -1) ∧
    ((∃ i, DeviceSat numDevices info
          (fun d => PreferredName d.name ∧ 0 < d.maxOutputChannels) i) →
      ∃ k : Nat, (selectDevices numDevices info).outputDevice = (k : Int) ∧
        LowestDevice numDevices info
          (fun d => PreferredName d.name ∧ 0 < d.maxOutputChannels) k) ∧
    ((¬ ∃ i, DeviceSat numDevices info
          (fun d => PreferredName d.name ∧ 0 < d.maxOutputChannels) i) →
      (∃ i, DeviceSat numDevices info (fun d => 0 < d.maxOutputChannels) i) →
      ∃ k : Nat, (selectDevices numDevices info).outputDevice = (k : Int) ∧
        LowestDevice numDevices info (fun d => 0 < d.maxOutputChannels) k) ∧
    ((¬ ∃ i, DeviceSat numDevices info (fun d => 0 < d.maxOutputChannels) i) →
      (selectDevices numDevices info).outputDevice = -1) ∧
    (opensStream (selectDevices numDevices info) = true ↔
      ((selectDevices numDevices info).inputDevice ≠ -1 ∧
        (selectDevices numDevices info).outputDevice ≠ -1)) := by
  obtain ⟨i1a, i1b, i2a, i2b, i2c⟩ := selectDevices_input numDevices info
  obtain ⟨o1a, o1b, o2a, o2b, o2c⟩ := selectDevices_output numDevices info
  have hin := two_pass_policy _ _ numDevices.toNat _ _
    (fun i h => by
      unfold devTest at h ⊢
      cases hd : info (i : Int) with
      | none => rw [hd] at h; cases h
      | some d =>
        rw [hd] at h
        simp only [Bool.and_eq_true] at h
        exact h.2)
    i1a i1b i2a i2b i2c
  have hout := two_pass_policy _ _ numDevices.toNat _ _
    (fun i h => by
      unfold devTest at h ⊢
      cases hd : info (i : Int) with
      | none => rw [hd] at h; cases h
      | some d =>
        rw [hd] at h
        simp only [Bool.and_eq_true] at h
        exact h.2)
    o1a o1b o2a o2b o2c
  simp only [LowestDevice, deviceSat_iff numDevices info _ _ prefIn_iff,
    deviceSat_iff numDevices info _ _ prefOut_iff,
    deviceSat_iff numDevices info _ _ anyIn_iff,
    deviceSat_iff numDevices info _ _ anyOut_iff]
  refine ⟨hin.1, hin.2.1, hin.2.2, hout.1, hout.2.1, hout.2.2, ?_⟩
  simp [opensStream]

/-- Three pushes from the initial state: the cursor is 3 and slot 1 holds the second pair
of levels, times 10. -/
theorem history_ring_push_witness :
    (historyRun [((1 : ℚ), (2 : ℚ)), (3, 4), (5, 6)] (initialGlobals ℚ)).historyIndex
        = [((1 : ℚ), (2 : ℚ)), (3, 4), (5, 6)].length % 100 ∧
    ([((1 : ℚ), (2 : ℚ)), (3, 4), (5, 6)][1]? = some (3, 4) ∧
      [((1 : ℚ), (2 : ℚ)), (3, 4), (5, 6)].length
        - min [((1 : ℚ), (2 : ℚ)), (3, 4), (5, 6)].length 100 ≤ 1) ∧
    (historyRun [((1 : ℚ), (2 : ℚ)), (3, 4), (5, 6)] (initialGlobals ℚ)).inputHistory.get
        (1 % 100) = (3, 4).1 * ((10 : Nat) : ℚ) ∧
    (historyRun [((1 : ℚ), (2 : ℚ)), (3, 4), (5, 6)] (initialGlobals ℚ)).outputHistory.get
        (1 % 100) = (3, 4).2 * ((10 : Nat) : ℚ) :=
  ⟨(history_ring_push.2 [((1 : ℚ), (2 : ℚ)), (3, 4), (5, 6)]).1, ⟨rfl, by decide⟩,
    (history_ring_push.2 [((1 : ℚ), (2 : ℚ)), (3, 4), (5, 6)]).2.2.1 1 (3, 4) rfl
      (by decide)⟩

/-- The policy on the sample device table: a preferred device with input channels exists
(the PulseAudio device), and the chosen input index is the lowest such device. -/
theorem device_selection_policy_witness :
    (∃ i, DeviceSat 4 sampleDevices
        (fun d => PreferredName d.name ∧ 0 < d.maxInputChannels) i) ∧
    ∃ k : Nat, (selectDevices 4 sampleDevices).inputDevice = (k : Int) ∧
      LowestDevice 4 sampleDevices
        (fun d => PreferredName d.name ∧ 0 < d.maxInputChannels) k :=
  have hex : ∃ i, DeviceSat 4 sampleDevices
      (fun d => PreferredName d.name ∧ 0 < d.maxInputChannels) i :=
    ⟨2, by decide, _, rfl, Or.inr (Or.inl List.infix_rfl), by decide⟩
  ⟨hex, (device_selection_policy 4 sampleDevices).1 hex⟩

/-! ## The blend helper of the processor -/

/-- With a valid handle, `RNNoiseProcessor::process` leaves at every `i < frame_size`,
`i < 480`, the value `original[i] * strength + denoised[i] * (1 - strength)`: after the
engine call `frame` holds the denoised samples and `tmp` the original ones, and line 46
weights `tmp` by `strength`. -/
theorem process_apply {F D : Type} [Zero F] [One F] [Add F] [Mul F] [Sub F]
    (e : D → Buffer F → D × Buffer F) (self : RNNoiseProcessor D) (d : D)
    (frame : Buffer F) (frame_size : Nat) (strength : F) (i : Nat)
    (hst : self.st = some d) (hi : i < frame_size) (h480 : i < 480) :
    (RNNoiseProcessor.process e self frame frame_size strength).1.get i
      = frame.get i * strength
          + (e d (vectorOf frame frame_size)).2.get i * (1 - strength) := by
  unfold RNNoiseProcessor.process
  rw [hst]
  refine Eq.trans (forRange_store
    (fun k v => (vectorOf frame frame_size).get k * strength + v * (1 - strength))
    frame_size (writeFrame (e d (vectorOf frame frame_size)).2 frame) i) ?_
  rw [if_pos hi]
  simp [vectorOf, writeFrame, FRAMES_PER_BUFFER, hi, h480]

/-- Over a field, the helper and the callback formula agree at a sample exactly when the
strength is `1/2` or the engine left the sample unchanged. -/
theorem process_agrees_iff {F : Type} [Field F] [CharZero F] (orig den s : F) :
    orig * s + den * (1 - s) = den * s + orig * (1 - s) ↔ (s = 1 / 2 ∨ den = orig) := by
  constructor
  · intro h
    have h2 : (2 * s - 1) * (orig - den) = 0 := by linear_combination h
    rcases mul_eq_zero.mp h2 with h3 | h3
    · left
      have h4 : (2 : F) * s = 1 := by linear_combination h3
      have h2ne : (2 : F) ≠ 0 := two_ne_zero
      field_simp
      linear_combination h4
    · right
      exact (sub_eq_zero.mp h3).symm
  · rintro (h | h)
    · rw [h]; ring
    · rw [h]

/-- C11, evaluated on the code: on a 480-sample frame of ones, with the halving engine
(denoised sample `1/2`) and a valid handle, `RNNoiseProcessor::process` at strength `1/4`
leaves `1 * 1/4 + 1/2 * 3/4 = 5/8` in the frame, where the formula of the claim and the
normal path of `paCallback` give `1/2 * 1/4 + 1 * 3/4 = 7/8`; at strength `1` it leaves the
original sample `1`, not the denoised `1/2`, and at strength `0` the denoised `1/2`, not the
original `1`.  The helper weights the original by `strength` and the denoised frame by
`1 - strength`, the reverse of the callback. -/
theorem process_blend_swapped :
    (RNNoiseProcessor.process halfEngine { st := some 0 } (constBuf 1) 480 (1 / 4)).1.get 0
      = 5 / 8 ∧
    (halfEngine 0 (vectorOf (constBuf 1) 480)).2.get 0 * (1 / 4)
      + (constBuf (1 : ℚ)).get 0 * (1 - 1 / 4) = 7 / 8 ∧
    outSample (paCallback Rat.sqrt halfEngine (globalsWithStrength (1 / 4))
        (some (constBuf 1)) (some (constBuf 0)) 480 (some { st := some 0 })) 0
      = some (7 / 8) ∧
    (RNNoiseProcessor.process halfEngine { st := some 0 } (constBuf 1) 480 1).1.get 0 = 1 ∧
    (RNNoiseProcessor.process halfEngine { st := some 0 } (constBuf 1) 480 0).1.get 0
      = 1 / 2 ∧
    (halfEngine 0 (vectorOf (constBuf 1) 480)).2.get 0 = 1 / 2 := by
  refine ⟨?_, ?_, ?_, ?_, ?_, ?_⟩
  · rw [process_apply halfEngine _ 0 _ 480 _ 0 rfl (by decide) (by decide)]
    simp [halfEngine, vectorOf, constBuf]
    norm_num
  · simp [halfEngine, vectorOf, constBuf]
    norm_num
  · rw [paCallback_normal Rat.sqrt halfEngine _ (constBuf 1) (constBuf 0)
      { st := some 0 } 0 rfl]
    simp [outSample, mixLoop_apply, writeFrame, FRAMES_PER_BUFFER, halfEngine, vectorOf,
      constBuf, globalsWithStrength, initialGlobals]
    norm_num
  · rw [process_apply halfEngine _ 0 _ 480 _ 0 rfl (by decide) (by decide)]
    simp [halfEngine, vectorOf, constBuf]
  · rw [process_apply halfEngine _ 0 _ 480 _ 0 rfl (by decide) (by decide)]
    simp [halfEngine, vectorOf, constBuf]
  · simp [halfEngine, vectorOf, constBuf]

end NoiseReduction
